import Mathlib

/-!
The CSV loading lambdas of cargue_archivo_mid_serverless.

A shallow embedding of `hello-world/main.go` (Variant A) and
`registro-datos/main.go` (Variant B).  Go strings and byte slices are lists of
bytes; the Go standard-library routines the two programs call
(`base64.StdEncoding.DecodeString`, `csv.Reader.ReadAll`, `strconv.ParseBool`,
`fmt.Sscanf` with `%d`, `json.Marshal`, `json.Unmarshal`) are modelled from
their documented behaviour.  The HTTP endpoint is an arbitrary state-passing
oracle.  Writes to the log and to standard output are not part of the model.
-/

namespace CargueArchivo

/-! ## Bytes and UTF-8 -/

deriving instance DecidableEq for Except

/-- A Go `string` or `[]byte`: a sequence of bytes, each a number below 256. -/
abbrev Bytes := List Nat

/-- Go `utf8.RuneError`, the replacement character U+FFFD. -/
def runeError : Nat := 0xFFFD

/-- Go `utf8.AppendRune`: the UTF-8 encoding of a rune (surrogates and values
above U+10FFFF are encoded as U+FFFD). -/
def encodeRune (r : Nat) : Bytes :=
  if r < 0x80 then [r]
  else if r < 0x800 then [0xC0 + r / 64, 0x80 + r % 64]
  else if (0xD800 ≤ r ∧ r ≤ 0xDFFF) ∨ 0x10FFFF < r then [0xEF, 0xBF, 0xBD]
  else if r < 0x10000 then [0xE0 + r / 4096, 0x80 + r / 64 % 64, 0x80 + r % 64]
  else [0xF0 + r / 262144, 0x80 + r / 4096 % 64, 0x80 + r / 64 % 64, 0x80 + r % 64]

/-- The bytes of a Go string literal of the source (Go source text is UTF-8). -/
def lit (s : String) : Bytes :=
  (s.data.map (fun c => encodeRune c.toNat)).flatten

/-- A continuation byte `10xxxxxx` restricted to the range `lo..hi`. -/
def cont (lo hi b : Nat) : Bool := decide (lo ≤ b ∧ b ≤ hi)

/-- Go `utf8.DecodeRune` on a non-empty input: the first rune and its width in
bytes; an invalid or truncated encoding gives `(RuneError, 1)`. -/
def decodeRune (b0 : Nat) (rest : Bytes) : Nat × Nat :=
  if b0 < 0x80 then (b0, 1)
  else if 0xC2 ≤ b0 ∧ b0 ≤ 0xDF then
    match rest with
    | b1 :: _ => if cont 0x80 0xBF b1 then (b0 % 32 * 64 + b1 % 64, 2) else (runeError, 1)
    | _ => (runeError, 1)
  else if 0xE0 ≤ b0 ∧ b0 ≤ 0xEF then
    match rest with
    | b1 :: b2 :: _ =>
      let lo := if b0 = 0xE0 then 0xA0 else 0x80
      let hi := if b0 = 0xED then 0x9F else 0xBF
      if cont lo hi b1 && cont 0x80 0xBF b2 then
        (b0 % 16 * 4096 + b1 % 64 * 64 + b2 % 64, 3)
      else (runeError, 1)
    | _ => (runeError, 1)
  else if 0xF0 ≤ b0 ∧ b0 ≤ 0xF4 then
    match rest with
    | b1 :: b2 :: b3 :: _ =>
      let lo := if b0 = 0xF0 then 0x90 else 0x80
      let hi := if b0 = 0xF4 then 0x8F else 0xBF
      if cont lo hi b1 && cont 0x80 0xBF b2 && cont 0x80 0xBF b3 then
        (b0 % 8 * 262144 + b1 % 64 * 4096 + b2 % 64 * 64 + b3 % 64, 4)
      else (runeError, 1)
    | _ => (runeError, 1)
  else (runeError, 1)

/-- The runes of a byte string, each with its width, as a Go `range` loop or a
rune reader sees them. -/
def runesAux : Nat → Bytes → List (Nat × Nat)
  | 0, _ => []
  | _, [] => []
  | fuel + 1, b :: bs =>
    let rw := decodeRune b bs
    rw :: runesAux fuel (bs.drop (rw.2 - 1))

/-- The runes of a byte string; a string has at most as many runes as bytes. -/
def runes (s : Bytes) : List (Nat × Nat) := runesAux s.length s

/-- Go `strconv.Itoa` on a non-negative number. -/
def itoa (n : Nat) : Bytes := (Nat.toDigits 10 n).map Char.toNat

/-- Go `strconv.FormatInt(i, 10)`. -/
def formatInt (i : Int) : Bytes :=
  if i < 0 then 45 :: itoa i.natAbs else itoa i.natAbs

/-! ## encoding/base64 -/

/-- The alphabet of `base64.StdEncoding`. -/
def encodeStd : Bytes :=
  lit "ABCDEFGHIJKLMNOPQRSTUVWXYZabcdefghijklmnopqrstuvwxyz0123456789+/"

/-- The `decodeMap` of `base64.StdEncoding`: the 6-bit value of an alphabet
byte, `none` (Go: `0xff`) for any other byte. -/
def decodeMap (c : Nat) : Option Nat :=
  if encodeStd.indexOf c < 64 then some (encodeStd.indexOf c) else none

/-- The bytes `'\n'` and `'\r'`, which the decoder ignores. -/
def esSalto (c : Nat) : Bool := decide (c = 10 ∨ c = 13)

/-- The tail of `decodeQuantum`: the 6-bit values in `dbuf` (missing ones are
zero) are packed into 24 bits and the first `dlen - 1` bytes are written. -/
def quantum (dbuf : List Nat) (dlen : Nat) : Bytes :=
  let val := dbuf.getD 0 0 * 2 ^ 18 + dbuf.getD 1 0 * 2 ^ 12 + dbuf.getD 2 0 * 2 ^ 6
    + dbuf.getD 3 0
  [val / 2 ^ 16 % 256, val / 2 ^ 8 % 256, val % 256].take (dlen - 1)

/-- Go `(*Encoding).Decode` for `StdEncoding` (padding `=`, not strict): the
loop over `decodeQuantum`.  `n` is `len(src)`, the list is `src[si:]`, `dbuf`
holds the `j` values of the quantum read so far.  An error carries the offset
of `CorruptInputError`. -/
def decode (n : Nat) : Bytes → List Nat → Except Nat Bytes
  | [], dbuf => if dbuf.length = 0 then .ok [] else .error (n - dbuf.length)
  | c :: cs, dbuf =>
    match decodeMap c with
    | some out =>
      if dbuf.length = 3 then
        match decode n cs [] with
        | .ok r => .ok (quantum (dbuf ++ [out]) 4 ++ r)
        | .error e => .error e
      else decode n cs (dbuf ++ [out])
    | none =>
      if esSalto c then decode n cs dbuf
      else if c ≠ 61 then .error (n - cs.length - 1)
      else if dbuf.length < 2 then .error (n - cs.length - 1)
      else if dbuf.length = 2 then
        match cs.dropWhile esSalto with
        | [] => .error n
        | d :: ds =>
          if d ≠ 61 then .error (n - (d :: ds).length - 1)
          else if ds.dropWhile esSalto ≠ [] then .error (n - (ds.dropWhile esSalto).length)
          else .ok (quantum dbuf 2)
      else if cs.dropWhile esSalto ≠ [] then .error (n - (cs.dropWhile esSalto).length)
      else .ok (quantum dbuf 3)

/-- Go `base64.StdEncoding.DecodeString`. -/
def decodeString (s : Bytes) : Except Nat Bytes := decode s.length s []

/-- Go `CorruptInputError.Error`. -/
def corruptInputError (e : Nat) : Bytes :=
  lit "illegal base64 data at input byte " ++ itoa e

/-- `decodificarBase64` of both variants. -/
def decodificarBase64 (data : Bytes) : Except Bytes Bytes :=
  match decodeString data with
  | .error err => .error (lit "Error al decodificar base64: " ++ corruptInputError err)
  | .ok datos => .ok datos

/-! ## encoding/csv -/

/-- The errors `csv.Reader.ReadAll` can return on an in-memory input with the
default settings (`Comma = ','`, no comments, `LazyQuotes = false`,
`FieldsPerRecord = 0`, `TrimLeadingSpace = false`). -/
inductive CsvError where
  | ErrBareQuote
  | ErrQuote
  | ErrFieldCount
  deriving DecidableEq, Repr

/-- The effect of `(*Reader).readLine` on the input stream: every `\r\n` is
read as `\n`, and a `\r` that is the last byte of the input is dropped.  The
reader only ever sees the stream through `readLine`, one line at a time, so the
records are parsed from the normalised stream. -/
def normalizar : Bytes → Bytes
  | [] => []
  | [b] => if b = 13 then [] else [b]
  | b :: c :: rest =>
    if b = 13 ∧ c = 10 then 10 :: normalizar rest else b :: normalizar (c :: rest)

/-- Where the `parseField` loop of `readRecord` stands: at the start of a
field, inside a non-quoted field, inside a quoted field, or just after a quote
met inside a quoted field. -/
inductive Lugar where
  | campo
  | libre
  | comillas
  | trasComilla
  deriving DecidableEq, Repr

/-- Prepend a byte to the field being read. -/
def conByte (b : Nat) : Except CsvError (List Bytes × Bytes) → Except CsvError (List Bytes × Bytes)
  | .ok (f :: fs, rest) => .ok ((b :: f) :: fs, rest)
  | r => r

/-- Close the field being read: the fields that follow come after it. -/
def conCampo : Except CsvError (List Bytes × Bytes) → Except CsvError (List Bytes × Bytes)
  | .ok (fs, rest) => .ok ([] :: fs, rest)
  | r => r

/-- The `parseField` loop of `(*Reader).readRecord`, byte by byte: the fields
of the record (the first one is what is left of the field being read) and the
input after the record.  A record ends at `\n` or at the end of the input.
* non-quoted field: runs up to the next `,` or the end of the line; a `"`
  inside it is `ErrBareQuote`;
* quoted field (the field starts with `"`): runs over line ends up to the next
  `"`; then `""` is a quote, `",` ends the field, `"` before the end of the
  line ends the record, anything else is `ErrQuote`; so is the end of the
  input before the closing quote. -/
def parseField : Lugar → Bytes → Except CsvError (List Bytes × Bytes)
  | .comillas, [] => .error .ErrQuote
  | _, [] => .ok ([[]], [])
  | .comillas, b :: bs =>
    if b = 34 then parseField .trasComilla bs else conByte b (parseField .comillas bs)
  | .trasComilla, b :: bs =>
    if b = 34 then conByte 34 (parseField .comillas bs)
    else if b = 44 then conCampo (parseField .campo bs)
    else if b = 10 then .ok ([[]], bs)
    else .error .ErrQuote
  | .campo, b :: bs =>
    if b = 34 then parseField .comillas bs
    else if b = 44 then conCampo (parseField .campo bs)
    else if b = 10 then .ok ([[]], bs)
    else conByte b (parseField .libre bs)
  | .libre, b :: bs =>
    if b = 44 then conCampo (parseField .campo bs)
    else if b = 10 then .ok ([[]], bs)
    else if b = 34 then .error .ErrBareQuote
    else conByte b (parseField .libre bs)

/-- The loop of `(*Reader).ReadAll` over `readRecord`.  `fpr` is the reader's
`FieldsPerRecord`: 0 until the first record sets it, then every record must
have that many fields.  Empty lines between records are skipped.  Each turn
consumes at least one byte, so `fuel` above the length of the input is never
used up. -/
def readAll : Nat → Nat → Bytes → Except CsvError (List (List Bytes))
  | 0, _, _ => .ok []
  | _ + 1, _, [] => .ok []
  | fuel + 1, fpr, b :: bs =>
    if b = 10 then readAll fuel fpr bs
    else
      match parseField .campo (b :: bs) with
      | .error e => .error e
      | .ok (dst, rest) =>
        if 0 < fpr ∧ dst.length ≠ fpr then .error .ErrFieldCount
        else
          match readAll fuel (if fpr = 0 then dst.length else fpr) rest with
          | .error e => .error e
          | .ok records => .ok (dst :: records)

/-- Go `csv.NewReader(strings.NewReader(s)).ReadAll()`. -/
def ReadAll (s : Bytes) : Except CsvError (List (List Bytes)) :=
  readAll ((normalizar s).length + 1) 0 (normalizar s)

/-- The texts of the library errors whose wording depends on line and column
positions that the model does not track: for an input the library rejects,
the `Error()` string of the error it returns. -/
structure Textos where
  /-- Text of the `*csv.ParseError` of `ReadAll` on a rejected input. -/
  csv : Bytes → Bytes
  /-- Text of the error of `json.Unmarshal` on a rejected request body. -/
  json : Bytes → Bytes

/-- `leerCSV` of both variants. -/
def leerCSV (t : Textos) (data : Bytes) : Except Bytes (List (List Bytes)) :=
  match ReadAll data with
  | .error _ => .error (lit "Error al leer el CSV: " ++ t.csv data)
  | .ok registros => .ok registros

/-! ## strconv.ParseBool and fmt.Sscanf -/

/-- Go `strconv.ParseBool`: the value and whether an error is returned. -/
def ParseBool (str : Bytes) : Bool × Bool :=
  if str ∈ [lit "1", lit "t", lit "T", lit "true", lit "TRUE", lit "True"] then (true, false)
  else if str ∈ [lit "0", lit "f", lit "F", lit "false", lit "FALSE", lit "False"] then
    (false, false)
  else (false, true)

/-- The `isSpace` table of `fmt/scan.go`. -/
def isSpace (r : Nat) : Bool :=
  decide ((0x0009 ≤ r ∧ r ≤ 0x000D) ∨ r = 0x0020 ∨ r = 0x0085 ∨ r = 0x00A0 ∨ r = 0x1680
    ∨ (0x2000 ≤ r ∧ r ≤ 0x200A) ∨ r = 0x2028 ∨ r = 0x2029 ∨ r = 0x202F ∨ r = 0x205F
    ∨ r = 0x3000)

/-- The constant `hugeWid` of `fmt/scan.go`: the scan state reports end of input
once this many runes have been read. -/
def hugeWid : Nat := 2 ^ 30

/-- The runes `(*ss).ReadRune` hands out when `count` runes are already read. -/
def limitar : Nat → List Nat → List Nat
  | _, [] => []
  | count, r :: rs => if count < hugeWid then r :: limitar (count + 1) rs else []

/-- `(*ss).SkipSpace` of `Sscanf` (a newline does not count as space there):
`none` is the error "unexpected newline". -/
def SkipSpace : List Nat → Option (List Nat)
  | [] => some []
  | r :: rs =>
    if r = 10 then none
    else if isSpace r then SkipSpace rs
    else some (r :: rs)

/-- A decimal digit rune. -/
def esDigito (r : Nat) : Bool := decide (48 ≤ r ∧ r ≤ 57)

/-- The value of a string of decimal digits. -/
def valorDecimal (ds : List Nat) : Nat := ds.foldl (fun acc d => 10 * acc + (d - 48)) 0

/-- Go `strconv.ParseInt(tok, 10, 64)` on a token made of an optional sign and
at least one decimal digit: `none` is the range error. -/
def ParseInt (neg : Bool) (ds : List Nat) : Option Int :=
  if neg then
    if 2 ^ 63 < valorDecimal ds then none else some (-(valorDecimal ds : Int))
  else
    if 2 ^ 63 ≤ valorDecimal ds then none else some (valorDecimal ds : Int)

/-- `(*ss).scanInt` for the verb `%d` into an `int` (64 bits): skip space,
fail at the end of the input, accept one sign, then at least one digit, and
convert the token. -/
def scanInt (rs : List Nat) : Option Int :=
  match SkipSpace rs with
  | none => none
  | some [] => none
  | some (r :: rest) =>
    let neg := decide (r = 45)
    let cuerpo := if r = 43 ∨ r = 45 then rest else r :: rest
    if cuerpo.takeWhile esDigito = [] then none
    else ParseInt neg (cuerpo.takeWhile esDigito)

/-- Go `fmt.Sscanf(str, "%d", &v)`: `some i` when `v` is set to `i`, `none`
when the scan fails and `v` is left as it was.  `doScanf` skips space before
the verb, then `scanInt` reads the number; what follows the number is left
unread, which is no error. -/
def Sscanf (str : Bytes) : Option Int :=
  match SkipSpace (limitar 0 ((runes str).map Prod.fst)) with
  | none => none
  | some rs => scanInt rs

/-! ## encoding/json: Marshal -/

/-- The digits `hex` of `encoding/json`. -/
def hex : Bytes := lit "0123456789abcdef"

/-- The table `htmlSafeSet` of `encoding/json`: the ASCII bytes written as they are. -/
def htmlSafeSet (b : Nat) : Bool :=
  decide (0x20 ≤ b ∧ b < 0x80 ∧ b ≠ 34 ∧ b ≠ 38 ∧ b ≠ 60 ∧ b ≠ 62 ∧ b ≠ 92)

/-- The escape `appendString` writes for an ASCII byte outside `htmlSafeSet`
(`\b` and `\f` as `encoding/json` writes them since Go 1.22; older releases
write them as `\u0008` and `\u000c`). -/
def escapeByte (b : Nat) : Bytes :=
  if b = 92 ∨ b = 34 then [92, b]
  else if b = 8 then lit "\\b"
  else if b = 12 then lit "\\f"
  else if b = 10 then lit "\\n"
  else if b = 13 then lit "\\r"
  else if b = 9 then lit "\\t"
  else lit "\\u00" ++ [hex.getD (b / 16) 0, hex.getD (b % 16) 0]

/-- The body of `appendString` with `escapeHTML` set, between the two quotes:
ASCII through `htmlSafeSet`, an invalid UTF-8 byte as the escape of U+FFFD, U+2028 and
U+2029 escaped, every other rune copied. -/
def appendStringAux : Nat → Bytes → Bytes
  | 0, _ => []
  | _, [] => []
  | fuel + 1, b :: bs =>
    if b < 0x80 then
      (if htmlSafeSet b then [b] else escapeByte b) ++ appendStringAux fuel bs
    else
      let c := (decodeRune b bs).1
      let size := (decodeRune b bs).2
      if c = runeError ∧ size = 1 then lit "\\ufffd" ++ appendStringAux fuel bs
      else if c = 0x2028 ∨ c = 0x2029 then
        lit "\\u202" ++ [hex.getD (c % 16) 0] ++ appendStringAux fuel (bs.drop (size - 1))
      else (b :: bs).take size ++ appendStringAux fuel (bs.drop (size - 1))

/-- Go `appendString(dst, src, true)` of `encoding/json`: a JSON string literal. -/
def appendString (src : Bytes) : Bytes :=
  [34] ++ appendStringAux src.length src ++ [34]

/-- The anonymous struct `struct { Id int }` of the fields `RolId` and `UsuarioId`. -/
structure Ident where
  Id : Int
  deriving DecidableEq, Repr

/-- The struct `Response` of both variants. -/
structure Response where
  FechaFin : Bytes
  FechaInicio : Bytes
  Finalizado : Bool
  RolId : Ident
  UsuarioId : Ident
  deriving DecidableEq, Repr

/-- Go `json.Marshal` of a `struct { Id int }`. -/
def marshalIdent (v : Ident) : Bytes :=
  lit "\x7b\"Id\":" ++ formatInt v.Id ++ lit "\x7d"

/-- Go `json.Marshal(response)` for a `Response`: the fields in declaration
order under their `json` tags.  Strings, booleans and integers always encode,
so the error is always nil. -/
def Marshal (v : Response) : Except Bytes Bytes :=
  .ok (lit "\x7b\"FechaFin\":" ++ appendString v.FechaFin
    ++ lit ",\"FechaInicio\":" ++ appendString v.FechaInicio
    ++ lit ",\"Finalizado\":" ++ (if v.Finalizado then lit "true" else lit "false")
    ++ lit ",\"RolId\":" ++ marshalIdent v.RolId
    ++ lit ",\"UsuarioId\":" ++ marshalIdent v.UsuarioId ++ lit "\x7d")

/-! ## The endpoint and the batch -/

/-- The network as `http.Post` sees it: from the state of the outside world, the
URL, the content type and the body, either a transport error (its text) or the
status code of the response, and the new state of the world. -/
structure Red (σ : Type) where
  /-- Go `http.Post(url, contentType, body)`. -/
  Post : σ → Bytes → Bytes → Bytes → Except Bytes Int × σ

/-- `enviarRegistro` of both variants: the error it returns (`none` is nil) and
the world after the request. -/
def enviarRegistro {σ : Type} (red : Red σ) (endpointURL : Bytes) (w : σ) (jsonData : Bytes) :
    Option Bytes × σ :=
  match red.Post w endpointURL (lit "application/json") jsonData with
  | (.error err, w1) => (some (lit "Error al enviar los datos al endpoint: " ++ err), w1)
  | (.ok StatusCode, w1) =>
    if StatusCode ≠ 200 ∧ StatusCode ≠ 201 then
      (some (lit "Error: el servidor devolvió un estado " ++ formatInt StatusCode), w1)
    else (none, w1)

/-- How a Go call ends: it returns a value or it panics. -/
inductive Fin (α : Type) where
  | retorna (v : α)
  | panic
  deriving DecidableEq, Repr

/-- A run of a function that talks to the endpoint: how it ends, the world it
leaves, and the `jsonData` of every call of `enviarRegistro`, in call order. -/
structure Corrida (σ α : Type) where
  fin : Fin α
  mundo : σ
  enviados : List Bytes
  deriving DecidableEq

/-- The `for _, registro := range registros` loop of `procesarCSV`.  An index
`registro[i]` outside the row panics before anything is sent for that row.  The
error of `ParseBool` is overwritten unread and the result of `Sscanf` is
dropped.  A failed send is logged and the loop continues; a successful one is
printed and the loop goes on as well. -/
def recorrer {σ : Type} (red : Red σ) (endpointURL : Bytes) :
    σ → List (List Bytes) → Corrida σ (Bytes × Option Bytes)
  | w, [] => ⟨.retorna (lit "Datos enviados correctamente", none), w, []⟩
  | w, registro :: resto =>
    match registro[0]?, registro[1]?, registro[2]?, registro[3]?, registro[4]?,
      registro[5]? with
    | some id, some fechaFin, some fechaInicio, some finalizadoStr, some rolIdInt,
      some usuarioIdInt =>
      let finalizado := (ParseBool finalizadoStr).1
      let usuarioId := (Sscanf usuarioIdInt).getD 0
      let rolID := (Sscanf rolIdInt).getD 0
      let response : Response :=
        ⟨fechaFin, fechaInicio, finalizado, ⟨rolID⟩, ⟨usuarioId⟩⟩
      match Marshal response with
      | .error err =>
        ⟨.retorna ([], some (lit "Error al crear el registro " ++ id ++ lit ": " ++ err)), w, []⟩
      | .ok jsonData =>
        match enviarRegistro red endpointURL w jsonData with
        | (some _, w1) =>
          let r := recorrer red endpointURL w1 resto
          ⟨r.fin, r.mundo, jsonData :: r.enviados⟩
        | (none, w1) =>
          let r := recorrer red endpointURL w1 resto
          ⟨r.fin, r.mundo, jsonData :: r.enviados⟩
    | _, _, _, _, _, _ => ⟨.panic, w, []⟩

/-- `procesarCSV` of both variants: the pair `(string, error)` it returns. -/
def procesarCSV {σ : Type} (red : Red σ) (endpointURL : Bytes) (w : σ)
    (registros : List (List Bytes)) : Corrida σ (Bytes × Option Bytes) :=
  match registros with
  | [] => ⟨.retorna ([], some (lit "CSV no valido")), w, []⟩
  | r0 :: _ =>
    if r0.length < 6 then ⟨.retorna ([], some (lit "CSV no valido")), w, []⟩
    else recorrer red endpointURL w registros

/-- The fields of `events.APIGatewayProxyRequest` the handlers read. -/
structure Request where
  HTTPMethod : Bytes
  Body : Bytes
  deriving DecidableEq, Repr

/-- The fields of `events.APIGatewayProxyResponse` the handlers set; `Headers`
is the map literal as a list of pairs (empty for a nil map). -/
structure ProxyResponse where
  StatusCode : Nat
  Headers : List (Bytes × Bytes)
  Body : Bytes
  deriving DecidableEq, Repr

/-! ## encoding/json: Unmarshal -/

/-- A JSON value as `encoding/json` decodes it; strings are unquoted, the value
of a number plays no part here. -/
inductive JValue where
  | null
  | bool (b : Bool)
  | number
  | string (s : Bytes)
  | array (xs : List JValue)
  | object (kvs : List (Bytes × JValue))

/-- The scanner's `isSpace`: space, tab, carriage return, line feed. -/
def esBlanco (c : Nat) : Bool := decide (c = 32 ∨ c = 9 ∨ c = 13 ∨ c = 10)

/-- The value of a hexadecimal digit. -/
def hexVal (c : Nat) : Option Nat :=
  if 48 ≤ c ∧ c ≤ 57 then some (c - 48)
  else if 97 ≤ c ∧ c ≤ 102 then some (c - 87)
  else if 65 ≤ c ∧ c ≤ 70 then some (c - 55)
  else none

/-- The four hexadecimal digits of a `\u` escape (Go `getu4`, after `\u`). -/
def hex4 : Bytes → Option (Nat × Bytes)
  | a :: b :: c :: d :: rest =>
    match hexVal a, hexVal b, hexVal c, hexVal d with
    | some x, some y, some z, some u => some (x * 4096 + y * 256 + z * 16 + u, rest)
    | _, _, _, _ => none
  | _ => none

/-- The character a one-letter escape stands for. -/
def escapeSimple (e : Nat) : Option Nat :=
  if e = 34 ∨ e = 92 ∨ e = 47 then some e
  else if e = 98 then some 8
  else if e = 102 then some 12
  else if e = 110 then some 10
  else if e = 114 then some 13
  else if e = 116 then some 9
  else none

/-- A string literal after its opening quote: the unquoted bytes (Go
`unquoteBytes`) and the input after the closing quote.  A control character or
a bad escape is a syntax error; a lone surrogate escape and an invalid UTF-8
byte become U+FFFD. -/
def parseString : Nat → Bytes → Option (Bytes × Bytes)
  | 0, _ => none
  | _, [] => none
  | fuel + 1, c :: cs =>
    if c = 34 then some ([], cs)
    else if c < 0x20 then none
    else if c = 92 then
      match cs with
      | [] => none
      | e :: es =>
        if e = 117 then
          match hex4 es with
          | none => none
          | some (rr, rest) =>
            if 0xD800 ≤ rr ∧ rr < 0xE000 then
              match rest with
              | 92 :: 117 :: mas =>
                match hex4 mas with
                | some (rr1, rest1) =>
                  if rr < 0xDC00 ∧ 0xDC00 ≤ rr1 ∧ rr1 < 0xE000 then
                    (parseString fuel rest1).map fun p =>
                      (encodeRune ((rr - 0xD800) * 1024 + (rr1 - 0xDC00) + 0x10000) ++ p.1, p.2)
                  else (parseString fuel rest).map fun p => (encodeRune runeError ++ p.1, p.2)
                | none => none
              | _ => (parseString fuel rest).map fun p => (encodeRune runeError ++ p.1, p.2)
            else (parseString fuel rest).map fun p => (encodeRune rr ++ p.1, p.2)
        else
          match escapeSimple e with
          | none => none
          | some x => (parseString fuel es).map fun p => (x :: p.1, p.2)
    else if c < 0x80 then (parseString fuel cs).map fun p => (c :: p.1, p.2)
    else
      (parseString fuel (cs.drop ((decodeRune c cs).2 - 1))).map fun p =>
        (encodeRune (decodeRune c cs).1 ++ p.1, p.2)

/-- A run of decimal digits, at least one: the input after it. -/
def digitos (s : Bytes) : Option Bytes :=
  if s.takeWhile esDigito = [] then none else some (s.dropWhile esDigito)

/-- A number literal: the input after it. -/
def parseNumber (s : Bytes) : Option Bytes :=
  let s1 := match s with
    | 45 :: r => r
    | _ => s
  let entero : Option Bytes := match s1 with
    | 48 :: r => some r
    | _ => digitos s1
  match entero with
  | none => none
  | some s2 =>
    let fraccion : Option Bytes := match s2 with
      | 46 :: r => digitos r
      | _ => some s2
    match fraccion with
    | none => none
    | some s3 =>
      match s3 with
      | e :: r =>
        if e = 101 ∨ e = 69 then
          match r with
          | sg :: r1 => if sg = 43 ∨ sg = 45 then digitos r1 else digitos r
          | [] => none
        else some s3
      | [] => some s3

/-- The constant `maxNestingDepth` of the scanner. -/
def maxNestingDepth : Nat := 10000

/-- What the parser is reading: a value, the members of an object after `{` or
`,`, the elements of an array after `[` or `,`. -/
inductive Tarea where
  | valor
  | miembros
  | elementos

/-- The JSON grammar the scanner of `encoding/json` accepts, with the values
built on the way.  For `valor` the list has one value; for `miembros` the
values of the members, with their keys in the second list; for `elementos` the
elements.  `depth` is the number of open objects and arrays. -/
def parseJSON : Nat → Tarea → Nat → Bytes → Option (List JValue × List Bytes × Bytes)
  | 0, _, _, _ => none
  | fuel + 1, .valor, depth, s =>
    match s with
    | [] => none
    | c :: cs =>
      if c = 123 then
        if maxNestingDepth < depth + 1 then none
        else
          match cs.dropWhile esBlanco with
          | 125 :: r => some ([.object []], [], r)
          | r =>
            (parseJSON fuel .miembros (depth + 1) r).map fun p =>
              ([.object (p.2.1.zip p.1)], [], p.2.2)
      else if c = 91 then
        if maxNestingDepth < depth + 1 then none
        else
          match cs.dropWhile esBlanco with
          | 93 :: r => some ([.array []], [], r)
          | r =>
            (parseJSON fuel .elementos (depth + 1) r).map fun p =>
              ([.array p.1], [], p.2.2)
      else if c = 34 then
        (parseString (cs.length + 1) cs).map fun p => ([.string p.1], [], p.2)
      else if (c :: cs).take 4 = lit "true" then some ([.bool true], [], (c :: cs).drop 4)
      else if (c :: cs).take 5 = lit "false" then some ([.bool false], [], (c :: cs).drop 5)
      else if (c :: cs).take 4 = lit "null" then some ([.null], [], (c :: cs).drop 4)
      else (parseNumber (c :: cs)).map fun r => ([.number], [], r)
  | fuel + 1, .miembros, depth, s =>
    match s with
    | 34 :: cs =>
      match parseString (cs.length + 1) cs with
      | none => none
      | some (key, r1) =>
        match r1.dropWhile esBlanco with
        | 58 :: r2 =>
          match parseJSON fuel .valor depth (r2.dropWhile esBlanco) with
          | some ([v], _, r3) =>
            match r3.dropWhile esBlanco with
            | 44 :: r4 =>
              (parseJSON fuel .miembros depth (r4.dropWhile esBlanco)).map fun p =>
                (v :: p.1, key :: p.2.1, p.2.2)
            | 125 :: r4 => some ([v], [key], r4)
            | _ => none
          | _ => none
        | _ => none
    | _ => none
  | fuel + 1, .elementos, depth, s =>
    match parseJSON fuel .valor depth s with
    | some ([v], _, r3) =>
      match r3.dropWhile esBlanco with
      | 44 :: r4 =>
        (parseJSON fuel .elementos depth (r4.dropWhile esBlanco)).map fun p =>
          (v :: p.1, [], p.2.2)
      | 93 :: r4 => some ([v], [], r4)
      | _ => none
    | _ => none

/-- A whole JSON text (Go `checkValid` followed by the decoder): one value
between optional white space.  A step of the parser takes one unit of fuel and
every second step at least consumes a byte, so the fuel is never used up. -/
def parseText (data : Bytes) : Option JValue :=
  match parseJSON (2 * data.length + 2) .valor 0 (data.dropWhile esBlanco) with
  | some ([v], _, r) => if r.dropWhile esBlanco = [] then some v else none
  | _ => none

/-- Go `foldRune` as far as it can reach an ASCII letter: the lower-case
letters, U+017F (long s) and U+212A (Kelvin sign) fold to upper-case ASCII. -/
def foldRune (r : Nat) : Nat :=
  if 97 ≤ r ∧ r ≤ 122 then r - 32
  else if r = 0x17F then 83
  else if r = 0x212A then 75
  else r

/-- Whether an object key selects the field tagged `json:"base64Data"`: the
exact name, or else the same name under case folding. -/
def esBase64Data (key : Bytes) : Bool :=
  decide (key = lit "base64Data") ||
    decide ((runes key).map (fun p => foldRune p.1) = lit "BASE64DATA")

/-- The decoder over the members of the object: the value of `Base64Data` so
far and whether a type error has been saved. -/
def decodeMembers : List (Bytes × JValue) → Bytes × Bool → Bytes × Bool
  | [], acc => acc
  | (key, v) :: rest, (val, err) =>
    if esBase64Data key then
      match v with
      | .string s => decodeMembers rest (s, err)
      | .null => decodeMembers rest (val, err)
      | _ => decodeMembers rest (val, true)
    else decodeMembers rest (val, err)

/-- Go `json.Unmarshal(data, &input)` with `input` the zero value of
`struct { Base64Data string }`: `some` of the field afterwards when the error
is nil, `none` when an error is returned (a syntax error, or a JSON value of
the wrong type for the struct or for the field). -/
def Unmarshal (data : Bytes) : Option Bytes :=
  match parseText data with
  | none => none
  | some .null => some []
  | some (.object kvs) =>
    if (decodeMembers kvs ([], false)).2 then none else some (decodeMembers kvs ([], false)).1
  | some _ => none

/-! ## The handlers -/

namespace HelloWorld

/-- The initial value of the package variable `base64Data` of `hello-world`. -/
def base64Data : Bytes :=
  lit "MSwyMDI0LTA5LTMwLDIwMjQtMDktMTMsZmFsc2UsMjQ1LDIKMiwyMDI0LTA5LTMwLDIwMjQtMDktMTMsZmFsc2UsMTkwLDQKMywyMDI0LTA5LTMwLDIwMjQtMDktMTMsZmFsc2UsMTkyLDQKNCwyMDI0LTA5LTMwLDIwMjQtMDktMTMsZmFsc2UsMTkzLDMKNSwyMDI0LTA5LTMwLDIwMjQtMDktMTMsZmFsc2UsMTk1LDIKNiwyMDI0LTA5LTMwLDIwMjQtMDktMTMsZmFsc2UsMTk5LDQKNywyMDI0LTA5LTMwLDIwMjQtMDktMTMsZmFsc2UsMjAwLDQKOCwyMDI0LTA5LTMwLDIwMjQtMDktMTMsZmFsc2UsMjMyLDMKOSwyMDI0LTA5LTMwLDIwMjQtMDktMTMsZmFsc2UsMjM4LDQKMTAsMjAyNC0wOS0zMCwyMDI0LTA5LTEzLGZhbHNlLDIzOSwyCjExLDIwMjQtMDktMzAsMjAyNC0wOS0xMyxmYWxzZSwyMjcsMgoxMiwyMDI0LTA5LTMwLDIwMjQtMDktMTMsZmFsc2UsMjMwLDQKMTMsMjAyNC0wOS0zMCwyMDI0LTA5LTEzLGZhbHNlLDI0Myw0CjE0LDIwMjQtMDktMzAsMjAyNC0wOS0xMyxmYWxzZSwyNDQsMwoxNSwyMDI0LTA5LTMwLDIwMjQtMDktMTMsZmFsc2UsMTg2LDIKMTYsMjAyNC0wOS0zMCwyMDI0LTA5LTEzLGZhbHNlLDE4Nyw0CjE3LDIwMjQtMDktMzAsMjAyNC0wOS0xMyxmYWxzZSwyMDIsNAoxOCwyMDI0LTA5LTMwLDIwMjQtMDktMTMsZmFsc2UsMjAzLDMKMTksMjAyNC0wOS0zMCwyMDI0LTA5LTEzLGZhbHNlLDIwNSw0CjIwLDIwMjQtMDktMzAsMjAyNC0wOS0xMyxmYWxzZSwyMDYsMg=="

/-- The initial value of the package variable `endpointURL` of `hello-world`. -/
def endpointURL : Bytes :=
  lit "https://3ff1-170-78-41-251.ngrok-free.app/v1/periodos-rol-usuarios/"

/-- `handler` of `hello-world/main.go` (Variant A).  The package variables
`base64Data` and `endpointURL` are read where the handler runs, so they are
arguments; the request is not looked at.  The Go error returned is always nil
(`none`). -/
def handler {σ : Type} (t : Textos) (red : Red σ) (base64Data endpointURL : Bytes) (w : σ)
    (_request : Request) : Corrida σ (ProxyResponse × Option Bytes) :=
  match decodificarBase64 base64Data with
  | .error err => ⟨.retorna (⟨400, [], err⟩, none), w, []⟩
  | .ok data =>
    match leerCSV t data with
    | .error err => ⟨.retorna (⟨400, [], err⟩, none), w, []⟩
    | .ok registros =>
      let r := procesarCSV red endpointURL w registros
      match r.fin with
      | .panic => ⟨.panic, r.mundo, r.enviados⟩
      | .retorna (_, some err) => ⟨.retorna (⟨400, [], err⟩, none), r.mundo, r.enviados⟩
      | .retorna (resultado, none) =>
        ⟨.retorna (⟨200, [], resultado⟩, none), r.mundo, r.enviados⟩

end HelloWorld

namespace RegistroDatos

/-- The initial value of the package variable `endpointURL` of `registro-datos`. -/
def endpointURL : Bytes :=
  lit "https://7074-170-78-41-251.ngrok-free.app/v1/periodos-rol-usuarios/"

/-- The map literal `headers` of the handler. -/
def headers : List (Bytes × Bytes) :=
  [(lit "Access-Control-Allow-Origin", lit "http://localhost:4200"),
   (lit "Access-Control-Allow-Methods", lit "GET, POST, PUT, OPTIONS"),
   (lit "Access-Control-Allow-Headers", lit "Content-Type, Authorization")]

/-- The bytes `jsonStr`: `json.Marshal` of the map with the one entry
`"message": "Hello, world!"`. -/
def jsonStr : Bytes :=
  lit "\x7b" ++ appendString (lit "message") ++ lit ":" ++ appendString (lit "Hello, world!")
    ++ lit "\x7d"

/-- `handler` of `registro-datos/main.go` (Variant B).  The package variable
`endpointURL` is an argument.  The Go error returned is always nil (`none`). -/
def handler {σ : Type} (t : Textos) (red : Red σ) (endpointURL : Bytes) (w : σ)
    (request : Request) : Corrida σ (ProxyResponse × Option Bytes) :=
  if request.HTTPMethod = lit "OPTIONS" then
    ⟨.retorna (⟨200, headers, jsonStr⟩, none), w, []⟩
  else if request.HTTPMethod = lit "POST" then
    ⟨.retorna (⟨201, headers, jsonStr⟩, none), w, []⟩
  else
    match Unmarshal request.Body with
    | none =>
      ⟨.retorna (⟨400, headers,
        lit "Error al procesar el cuerpo del request: " ++ t.json request.Body⟩, none), w, []⟩
    | some Base64Data =>
      match decodificarBase64 Base64Data with
      | .error err => ⟨.retorna (⟨400, headers, err⟩, none), w, []⟩
      | .ok data =>
        match leerCSV t data with
        | .error err => ⟨.retorna (⟨400, headers, err⟩, none), w, []⟩
        | .ok registros =>
          let r := procesarCSV red endpointURL w registros
          match r.fin with
          | .panic => ⟨.panic, r.mundo, r.enviados⟩
          | .retorna (_, some err) =>
            ⟨.retorna (⟨400, headers, err⟩, none), r.mundo, r.enviados⟩
          | .retorna (resultado, none) =>
            ⟨.retorna (⟨200, headers, resultado⟩, none), r.mundo, r.enviados⟩

end RegistroDatos

/-- The part the two handlers have in common, once the base64 text is known:
decode, read the CSV, process the rows; every error is a 400 with its text. -/
def tuberia {σ : Type} (t : Textos) (red : Red σ) (endpointURL : Bytes)
    (headers : List (Bytes × Bytes)) (w : σ) (base64Data : Bytes) :
    Corrida σ (ProxyResponse × Option Bytes) :=
  match decodificarBase64 base64Data with
  | .error err => ⟨.retorna (⟨400, headers, err⟩, none), w, []⟩
  | .ok data =>
    match leerCSV t data with
    | .error err => ⟨.retorna (⟨400, headers, err⟩, none), w, []⟩
    | .ok registros =>
      let r := procesarCSV red endpointURL w registros
      match r.fin with
      | .panic => ⟨.panic, r.mundo, r.enviados⟩
      | .retorna (_, some err) => ⟨.retorna (⟨400, headers, err⟩, none), r.mundo, r.enviados⟩
      | .retorna (resultado, none) =>
        ⟨.retorna (⟨200, headers, resultado⟩, none), r.mundo, r.enviados⟩

/-- The JSON bytes `procesarCSV` builds for a row with at least six fields:
fields 1 to 5 by position, field 0 left out. -/
def carga (registro : List Bytes) : Bytes :=
  lit "\x7b\"FechaFin\":" ++ appendString (registro.getD 1 [])
    ++ lit ",\"FechaInicio\":" ++ appendString (registro.getD 2 [])
    ++ lit ",\"Finalizado\":"
    ++ (if (ParseBool (registro.getD 3 [])).1 then lit "true" else lit "false")
    ++ lit ",\"RolId\":" ++ marshalIdent ⟨(Sscanf (registro.getD 4 [])).getD 0⟩
    ++ lit ",\"UsuarioId\":" ++ marshalIdent ⟨(Sscanf (registro.getD 5 [])).getD 0⟩ ++ lit "\x7d"

/-- An endpoint that answers every request with status 200. -/
def redFija : Red Unit := ⟨fun _ _ _ _ => (.ok 200, ())⟩

/-- An endpoint that fails every request: a transport error on an empty body,
status 500 otherwise. -/
def redRota : Red Unit :=
  ⟨fun _ _ _ body => (if body = [] then .error (lit "dial tcp") else .ok 500, ())⟩

/-- Library error texts left blank. -/
def sinTextos : Textos := ⟨fun _ => [], fun _ => []⟩

/-- Three rows that differ in every field: the example row of the payload
format, a row with `true`, and a row with the token `T`, signed numbers and a
seventh field. -/
def tresFilas : List (List Bytes) :=
  [[lit "5", lit "2024-09-30", lit "2024-09-13", lit "false", lit "195", lit "2"],
   [lit "6", lit "2025-01-31", lit "2025-01-01", lit "true", lit "190", lit "4"],
   [lit "7", lit "2026-12-31", lit "2026-06-15", lit "T", lit "-3", lit "+8", lit "x"]]

/-- Two rows of six fields. -/
def dosFilas : List (List Bytes) :=
  [[lit "1", lit "2024-09-30", lit "2024-09-13", lit "false", lit "245", lit "2"],
   [lit "2", lit "2024-09-30", lit "2024-09-13", lit "si", lit "x190", lit "4"]]

/-- A decimal integer numeral: an optional sign followed by one or more decimal
digits and nothing else. -/
def esNumeral (s : Bytes) : Bool :=
  let ds := match s with
    | c :: r => if c = 43 ∨ c = 45 then r else s
    | [] => []
  !ds.isEmpty && ds.all esDigito

/-- Whether a token starts with an integer: after its leading white space and
an optional sign comes a decimal digit. -/
def empiezaConEntero (tok : Bytes) : Bool :=
  let rs := ((runes tok).map Prod.fst).dropWhile isSpace
  let cuerpo := match rs with
    | c :: r => if c = 43 ∨ c = 45 then r else rs
    | [] => []
  match cuerpo with
  | d :: _ => esDigito d
  | [] => false

/-- A byte of the base64 alphabet of RFC 4648, section 4. -/
def esAlfabeto (c : Nat) : Bool := encodeStd.contains c

/-- Standard base64 text (RFC 4648, section 4): characters of the alphabet,
then padding `=` up to a multiple of four characters, at most two of them. -/
def esBase64Estandar (s : Bytes) : Bool :=
  (s.dropWhile esAlfabeto).all (fun c => decide (c = 61))
    && decide ((s.takeWhile esAlfabeto).length % 4 ≠ 1)
    && decide ((s.dropWhile esAlfabeto).length = (4 - (s.takeWhile esAlfabeto).length % 4) % 4)

/-- The character of a 6-bit value in the standard alphabet. -/
def letra (v : Nat) : Nat := encodeStd.getD v 0

/-- The standard base64 encoding of a byte sequence (RFC 4648, section 4):
three bytes give four characters, a last group of one or two bytes is padded
with `=`. -/
def codificarBase64 : Bytes → Bytes
  | [] => []
  | [a] => [letra (a / 4), letra (a % 4 * 16), 61, 61]
  | [a, b] => [letra (a / 4), letra (a % 4 * 16 + b / 16), letra (b % 16 * 4), 61]
  | a :: b :: c :: rest =>
    letra (a / 4) :: letra (a % 4 * 16 + b / 16) :: letra (b % 16 * 4 + c / 64)
      :: letra (c % 64) :: codificarBase64 rest

/-- The text read so far is `j` characters into a quantum and `t` is what is
left: `t` completes a standard base64 text. -/
def sigue (j : Nat) (t : Bytes) : Prop :=
  (t.dropWhile esAlfabeto).all (fun c => decide (c = 61)) = true
    ∧ (j + (t.takeWhile esAlfabeto).length) % 4 ≠ 1
    ∧ (t.dropWhile esAlfabeto).length = (4 - (j + (t.takeWhile esAlfabeto).length) % 4) % 4

/-- Whether a field has to be quoted when written: it holds a comma, a quote, a
carriage return or a line feed. -/
def conComillas (f : Bytes) : Bool :=
  f.any (fun b => decide (b = 44 ∨ b = 34 ∨ b = 13 ∨ b = 10))

/-- The content of a quoted field: every quote doubled. -/
def duplicarComillas : Bytes → Bytes
  | [] => []
  | b :: r => if b = 34 then 34 :: 34 :: duplicarComillas r else b :: duplicarComillas r

/-- A field as standard CSV writes it (RFC 4180): as it is, or between quotes
with its quotes doubled when it holds a comma, a quote or a line break. -/
def escribirCampo (f : Bytes) : Bytes :=
  if conComillas f then 34 :: (duplicarComillas f ++ [34]) else f

/-- The fields of a record, separated by commas. -/
def escribirCampos : List Bytes → Bytes
  | [] => []
  | [f] => escribirCampo f
  | f :: g :: fs => escribirCampo f ++ 44 :: escribirCampos (g :: fs)

/-- Rows written as standard comma-separated CSV: every record on its own line,
ended by a line feed, or by a carriage return and a line feed when `crlf` is
set (the line break of RFC 4180). -/
def escribirCSV (crlf : Bool) : List (List Bytes) → Bytes
  | [] => []
  | r :: rs => escribirCampos r ++ (if crlf then [13, 10] else [10]) ++ escribirCSV crlf rs

/-- No line feed comes right after a carriage return; `cr` tells whether the
byte before the string is a carriage return. -/
def sinCRLFtras (cr : Bool) : Bytes → Bool
  | [] => true
  | b :: r => !(cr && decide (b = 10)) && sinCRLFtras (decide (b = 13)) r

/-- The field does not contain a carriage return immediately followed by a
line feed. -/
def sinCRLF (f : Bytes) : Bool := sinCRLFtras false f

/-- A string `readLine` leaves as it is whatever follows it. -/
def estable (s : Bytes) : Prop := ∀ t, normalizar (s ++ t) = s ++ normalizar t

/-- The bytes of a field put in front of the field being read. -/
def conBytes (f : Bytes) (x : Except CsvError (List Bytes × Bytes)) :
    Except CsvError (List Bytes × Bytes) :=
  f.foldr conByte x

/-- Two rows of six and of seven fields. -/
def filasDesiguales : List (List Bytes) :=
  [[lit "1", lit "a", lit "b", lit "c", lit "d", lit "e"],
   [lit "2", lit "f", lit "g", lit "h", lit "i", lit "j", lit "k"]]

/-- One row of six fields, the second of which holds a carriage return
followed by a line feed. -/
def filaConCRLF : List (List Bytes) :=
  [[lit "1", lit "a\r\nb", lit "c", lit "d", lit "e", lit "f"]]

/-! ## The batch: `procesarCSV` -/

theorem seis_campos {r : List Bytes} (h : 6 ≤ r.length) :
    ∃ a b c d e f rest, r = a :: b :: c :: d :: e :: f :: rest := by
  match r, h with
  | a :: b :: c :: d :: e :: f :: rest, _ => exact ⟨a, b, c, d, e, f, rest, rfl⟩

theorem recorrer_cons {σ : Type} (red : Red σ) (url : Bytes) (w : σ) (r : List Bytes)
    (resto : List (List Bytes)) (h : 6 ≤ r.length) :
    recorrer red url w (r :: resto) =
      ⟨(recorrer red url (enviarRegistro red url w (carga r)).2 resto).fin,
       (recorrer red url (enviarRegistro red url w (carga r)).2 resto).mundo,
       carga r :: (recorrer red url (enviarRegistro red url w (carga r)).2 resto).enviados⟩ := by
  obtain ⟨a, b, c, d, e, f, rest, rfl⟩ := seis_campos h
  have hm : Marshal ⟨b, c, (ParseBool d).1, ⟨(Sscanf e).getD 0⟩, ⟨(Sscanf f).getD 0⟩⟩
      = .ok (carga (a :: b :: c :: d :: e :: f :: rest)) := rfl
  simp only [recorrer, List.getElem?_cons_zero, List.getElem?_cons_succ, hm]
  cases enviarRegistro red url w (carga (a :: b :: c :: d :: e :: f :: rest)) with
  | mk err w1 => cases err <;> rfl

theorem recorrer_corto {σ : Type} (red : Red σ) (url : Bytes) (w : σ) (r : List Bytes)
    (resto : List (List Bytes)) (h : r.length < 6) :
    recorrer red url w (r :: resto) = ⟨.panic, w, []⟩ := by
  match r, h with
  | [], _ => rfl
  | [_], _ => rfl
  | [_, _], _ => rfl
  | [_, _, _], _ => rfl
  | [_, _, _, _], _ => rfl
  | [_, _, _, _, _], _ => rfl

theorem recorrer_todos {σ : Type} (red : Red σ) (url : Bytes) (registros : List (List Bytes))
    (h : ∀ r ∈ registros, 6 ≤ r.length) (w : σ) :
    (recorrer red url w registros).fin = .retorna (lit "Datos enviados correctamente", none)
      ∧ (recorrer red url w registros).enviados = registros.map carga := by
  induction registros generalizing w with
  | nil => exact ⟨rfl, rfl⟩
  | cons r resto ih =>
    rw [recorrer_cons red url w r resto (h r (List.mem_cons_self _ _))]
    have := ih (fun x hx => h x (List.mem_cons_of_mem _ hx)) (enviarRegistro red url w (carga r)).2
    exact ⟨this.1, by simp [this.2]⟩

theorem recorrer_hasta_corto {σ : Type} (red : Red σ) (url : Bytes) (antes : List (List Bytes))
    (corto : List Bytes) (despues : List (List Bytes))
    (h : ∀ r ∈ antes, 6 ≤ r.length) (hc : corto.length < 6) (w : σ) :
    (recorrer red url w (antes ++ corto :: despues)).fin = .panic
      ∧ (recorrer red url w (antes ++ corto :: despues)).enviados = antes.map carga := by
  induction antes generalizing w with
  | nil => simp [recorrer_corto red url w corto despues hc]
  | cons r resto ih =>
    rw [List.cons_append, recorrer_cons red url w r _ (h r (List.mem_cons_self _ _))]
    have := ih (fun x hx => h x (List.mem_cons_of_mem _ hx)) (enviarRegistro red url w (carga r)).2
    exact ⟨this.1, by simp [this.2]⟩

theorem procesarCSV_largo {σ : Type} (red : Red σ) (url : Bytes) (w : σ) (r0 : List Bytes)
    (resto : List (List Bytes)) (h : 6 ≤ r0.length) :
    procesarCSV red url w (r0 :: resto) = recorrer red url w (r0 :: resto) := by
  simp [procesarCSV, Nat.not_lt.mpr h]

theorem procesarCSV_no_vacio {σ : Type} (red : Red σ) (url : Bytes) (w : σ)
    (registros : List (List Bytes)) (hne : registros ≠ []) (h : ∀ r ∈ registros, 6 ≤ r.length) :
    procesarCSV red url w registros = recorrer red url w registros := by
  match registros, hne with
  | r0 :: resto, _ => exact procesarCSV_largo red url w r0 resto (h r0 (List.mem_cons_self _ _))

theorem procesarCSV_invalido {σ : Type} (red : Red σ) (url : Bytes) (w : σ)
    (registros : List (List Bytes))
    (h : registros = [] ∨ ∃ r0 resto, registros = r0 :: resto ∧ r0.length < 6) :
    procesarCSV red url w registros = ⟨.retorna ([], some (lit "CSV no valido")), w, []⟩ := by
  rcases h with rfl | ⟨r0, resto, rfl, h0⟩
  · rfl
  · simp [procesarCSV, h0]

theorem procesarCSV_todos {σ : Type} (red : Red σ) (url : Bytes) (w : σ)
    (registros : List (List Bytes)) (hne : registros ≠ [])
    (h : ∀ r ∈ registros, 6 ≤ r.length) :
    (procesarCSV red url w registros).fin
        = .retorna (lit "Datos enviados correctamente", none)
      ∧ (procesarCSV red url w registros).enviados = registros.map carga
      ∧ (procesarCSV red url w registros).enviados.length = registros.length := by
  rw [procesarCSV_no_vacio red url w registros hne h]
  have := recorrer_todos red url registros h w
  exact ⟨this.1, this.2, by simp [this.2]⟩

/-- C1: for a non-empty list of rows, each with at least six fields, and any
endpoint (any state, any answer to any request, so any subset of the rows may
fail), `procesarCSV` returns "Datos enviados correctamente" with a nil error,
and `enviarRegistro` is called exactly once per row, in row order, with the
JSON of that row. -/
theorem procesarCSV_tolera_fallos {σ : Type} (red : Red σ) (url : Bytes) (w : σ)
    (registros : List (List Bytes)) (hne : registros ≠ [])
    (h : ∀ r ∈ registros, 6 ≤ r.length) :
    (procesarCSV red url w registros).fin
        = .retorna (lit "Datos enviados correctamente", none)
      ∧ (procesarCSV red url w registros).enviados = registros.map carga
      ∧ (procesarCSV red url w registros).enviados.length = registros.length :=
  procesarCSV_todos red url w registros hne h

theorem procesarCSV_tolera_fallos_witness :
    dosFilas ≠ [] ∧ (∀ r ∈ dosFilas, 6 ≤ r.length)
      ∧ (procesarCSV redRota [] () dosFilas).fin
          = .retorna (lit "Datos enviados correctamente", none)
      ∧ (procesarCSV redRota [] () dosFilas).enviados = dosFilas.map carga
      ∧ (procesarCSV redRota [] () dosFilas).enviados.length = dosFilas.length :=
  ⟨by decide, by decide,
    procesarCSV_tolera_fallos redRota [] () dosFilas (by decide) (by decide)⟩

/-- C4: in a batch whose rows all have at least six fields, the JSON handed to
`enviarRegistro` for a row, at whatever position it stands, is the object with
the keys `FechaFin` = field 1, `FechaInicio` = field 2, `Finalizado` =
`ParseBool` of field 3, `RolId.Id` = `Sscanf` of field 4, `UsuarioId.Id` =
`Sscanf` of field 5, in this order, field 0 and any field after the sixth left
out; it is sent after the payloads of the rows before it and before those of
the rows after it.  The row `5,2024-09-30,2024-09-13,false,195,2` gives exactly
the bytes of the example, also when other rows follow it: in the batch of
three rows each row gives its own dates, boolean and ids. -/
theorem procesarCSV_carga_posicional {σ : Type} (red : Red σ) (url : Bytes) (w : σ)
    (antes despues : List (List Bytes))
    (id fechaFin fechaInicio finalizadoStr rolIdInt usuarioIdInt : Bytes) (mas : List Bytes)
    (ha : ∀ r ∈ antes, 6 ≤ r.length) (hd : ∀ r ∈ despues, 6 ≤ r.length) :
    (procesarCSV red url w (antes ++
          (id :: fechaFin :: fechaInicio :: finalizadoStr :: rolIdInt :: usuarioIdInt :: mas)
            :: despues)).enviados =
        antes.map carga ++
          (lit "\x7b\"FechaFin\":" ++ appendString fechaFin
            ++ lit ",\"FechaInicio\":" ++ appendString fechaInicio
            ++ lit ",\"Finalizado\":"
            ++ (if (ParseBool finalizadoStr).1 then lit "true" else lit "false")
            ++ lit ",\"RolId\":" ++ (lit "\x7b\"Id\":" ++ formatInt ((Sscanf rolIdInt).getD 0)
              ++ lit "\x7d")
            ++ lit ",\"UsuarioId\":" ++ (lit "\x7b\"Id\":"
              ++ formatInt ((Sscanf usuarioIdInt).getD 0) ++ lit "\x7d") ++ lit "\x7d")
            :: despues.map carga
      ∧ (procesarCSV red url w (antes ++
          (id :: fechaFin :: fechaInicio :: finalizadoStr :: rolIdInt :: usuarioIdInt :: mas)
            :: despues)).enviados[antes.length]? =
        some (lit "\x7b\"FechaFin\":" ++ appendString fechaFin
            ++ lit ",\"FechaInicio\":" ++ appendString fechaInicio
            ++ lit ",\"Finalizado\":"
            ++ (if (ParseBool finalizadoStr).1 then lit "true" else lit "false")
            ++ lit ",\"RolId\":" ++ (lit "\x7b\"Id\":" ++ formatInt ((Sscanf rolIdInt).getD 0)
              ++ lit "\x7d")
            ++ lit ",\"UsuarioId\":" ++ (lit "\x7b\"Id\":"
              ++ formatInt ((Sscanf usuarioIdInt).getD 0) ++ lit "\x7d") ++ lit "\x7d")
      ∧ (procesarCSV red url w
          [[lit "5", lit "2024-09-30", lit "2024-09-13", lit "false", lit "195", lit "2"]]
        ).enviados =
        [lit ("\x7b\"FechaFin\":\"2024-09-30\",\"FechaInicio\":\"2024-09-13\","
          ++ "\"Finalizado\":false,\"RolId\":\x7b\"Id\":195\x7d,\"UsuarioId\":\x7b\"Id\":2\x7d\x7d")]
      ∧ (procesarCSV red url w tresFilas).enviados =
        [lit ("\x7b\"FechaFin\":\"2024-09-30\",\"FechaInicio\":\"2024-09-13\","
          ++ "\"Finalizado\":false,\"RolId\":\x7b\"Id\":195\x7d,\"UsuarioId\":\x7b\"Id\":2\x7d\x7d"),
         lit ("\x7b\"FechaFin\":\"2025-01-31\",\"FechaInicio\":\"2025-01-01\","
          ++ "\"Finalizado\":true,\"RolId\":\x7b\"Id\":190\x7d,\"UsuarioId\":\x7b\"Id\":4\x7d\x7d"),
         lit ("\x7b\"FechaFin\":\"2026-12-31\",\"FechaInicio\":\"2026-06-15\","
          ++ "\"Finalizado\":true,\"RolId\":\x7b\"Id\":-3\x7d,\"UsuarioId\":\x7b\"Id\":8\x7d\x7d")] := by
  have hall : ∀ r ∈ antes ++
      (id :: fechaFin :: fechaInicio :: finalizadoStr :: rolIdInt :: usuarioIdInt :: mas)
        :: despues, 6 ≤ r.length := by
    intro r hr
    rcases List.mem_append.mp hr with h | h
    · exact ha r h
    · rcases List.mem_cons.mp h with h | h
      · subst h; simp
      · exact hd r h
  have hgen := (procesarCSV_todos red url w _ (by simp) hall).2.1
  have hfila : carga
      (id :: fechaFin :: fechaInicio :: finalizadoStr :: rolIdInt :: usuarioIdInt :: mas)
      = lit "\x7b\"FechaFin\":" ++ appendString fechaFin
        ++ lit ",\"FechaInicio\":" ++ appendString fechaInicio
        ++ lit ",\"Finalizado\":"
        ++ (if (ParseBool finalizadoStr).1 then lit "true" else lit "false")
        ++ lit ",\"RolId\":" ++ (lit "\x7b\"Id\":" ++ formatInt ((Sscanf rolIdInt).getD 0)
          ++ lit "\x7d")
        ++ lit ",\"UsuarioId\":" ++ (lit "\x7b\"Id\":"
          ++ formatInt ((Sscanf usuarioIdInt).getD 0) ++ lit "\x7d") ++ lit "\x7d" := rfl
  have htodo : (procesarCSV red url w (antes ++
      (id :: fechaFin :: fechaInicio :: finalizadoStr :: rolIdInt :: usuarioIdInt :: mas)
        :: despues)).enviados = antes.map carga ++
      carga (id :: fechaFin :: fechaInicio :: finalizadoStr :: rolIdInt :: usuarioIdInt :: mas)
        :: despues.map carga := by
    rw [hgen, List.map_append, List.map_cons]
  refine ⟨?_, ?_, ?_, ?_⟩
  · rw [htodo, hfila]
  · rw [htodo, ← hfila, List.getElem?_append_right (by simp)]
    simp
  · rw [(procesarCSV_todos red url w _ (by simp) (by simp [lit])).2.1]
    have h : carga [lit "5", lit "2024-09-30", lit "2024-09-13", lit "false", lit "195",
        lit "2"] = lit ("\x7b\"FechaFin\":\"2024-09-30\",\"FechaInicio\":\"2024-09-13\","
          ++ "\"Finalizado\":false,\"RolId\":\x7b\"Id\":195\x7d,\"UsuarioId\":\x7b\"Id\":2\x7d\x7d") := by
      decide!
    simp [h]
  · rw [(procesarCSV_todos red url w tresFilas (by decide) (by decide)).2.1]
    decide!

theorem procesarCSV_carga_posicional_witness :
    (∀ r ∈ [dosFilas.headD []], 6 ≤ r.length) ∧ (∀ r ∈ [dosFilas.headD []], 6 ≤ r.length)
      ∧ (procesarCSV redFija [] () ([dosFilas.headD []] ++
          [lit "6", lit "2025-01-31", lit "2025-01-01", lit "true", lit "190", lit "4"]
            :: [dosFilas.headD []])).enviados[[dosFilas.headD []].length]? =
        some (lit "\x7b\"FechaFin\":" ++ appendString (lit "2025-01-31")
            ++ lit ",\"FechaInicio\":" ++ appendString (lit "2025-01-01")
            ++ lit ",\"Finalizado\":"
            ++ (if (ParseBool (lit "true")).1 then lit "true" else lit "false")
            ++ lit ",\"RolId\":" ++ (lit "\x7b\"Id\":" ++ formatInt ((Sscanf (lit "190")).getD 0)
              ++ lit "\x7d")
            ++ lit ",\"UsuarioId\":" ++ (lit "\x7b\"Id\":"
              ++ formatInt ((Sscanf (lit "4")).getD 0) ++ lit "\x7d") ++ lit "\x7d") :=
  ⟨by decide, by decide,
    (procesarCSV_carga_posicional redFija [] () [dosFilas.headD []] [dosFilas.headD []]
      (lit "6") (lit "2025-01-31") (lit "2025-01-01") (lit "true") (lit "190") (lit "4") []
      (by decide) (by decide)).2.1⟩

/-- C5: in a batch whose rows all have at least six fields, a row whose field 3
is none of the tokens 1, t, T, TRUE, true, True, 0, f, F, FALSE, false, False
makes `ParseBool` fail with the value false; `procesarCSV` still returns the
success message with a nil error, and the row is sent with `Finalizado` false,
between the rows before it and the rows after it. -/
theorem procesarCSV_booleano_por_defecto {σ : Type} (red : Red σ) (url : Bytes) (w : σ)
    (antes despues : List (List Bytes))
    (id fechaFin fechaInicio finalizadoStr rolIdInt usuarioIdInt : Bytes) (mas : List Bytes)
    (ha : ∀ r ∈ antes, 6 ≤ r.length) (hd : ∀ r ∈ despues, 6 ≤ r.length)
    (hf : finalizadoStr ∉ [lit "1", lit "t", lit "T", lit "TRUE", lit "true", lit "True",
      lit "0", lit "f", lit "F", lit "FALSE", lit "false", lit "False"]) :
    ParseBool finalizadoStr = (false, true)
      ∧ (procesarCSV red url w (antes ++
          (id :: fechaFin :: fechaInicio :: finalizadoStr :: rolIdInt :: usuarioIdInt :: mas)
            :: despues)).fin = .retorna (lit "Datos enviados correctamente", none)
      ∧ (procesarCSV red url w (antes ++
          (id :: fechaFin :: fechaInicio :: finalizadoStr :: rolIdInt :: usuarioIdInt :: mas)
            :: despues)).enviados =
        antes.map carga ++
          (lit "\x7b\"FechaFin\":" ++ appendString fechaFin
            ++ lit ",\"FechaInicio\":" ++ appendString fechaInicio
            ++ lit ",\"Finalizado\":" ++ lit "false"
            ++ lit ",\"RolId\":" ++ marshalIdent ⟨(Sscanf rolIdInt).getD 0⟩
            ++ lit ",\"UsuarioId\":" ++ marshalIdent ⟨(Sscanf usuarioIdInt).getD 0⟩
            ++ lit "\x7d") :: despues.map carga := by
  have hp : ParseBool finalizadoStr = (false, true) := by
    simp only [List.mem_cons, List.mem_singleton, List.not_mem_nil, or_false, not_or] at hf
    obtain ⟨h1, h2, h3, h4, h5, h6, h7, h8, h9, h10, h11, h12⟩ := hf
    simp [ParseBool, h1, h2, h3, h4, h5, h6, h7, h8, h9, h10, h11, h12]
  have hall : ∀ r ∈ antes ++
      (id :: fechaFin :: fechaInicio :: finalizadoStr :: rolIdInt :: usuarioIdInt :: mas)
        :: despues, 6 ≤ r.length := by
    intro r hr
    rcases List.mem_append.mp hr with h | h
    · exact ha r h
    · rcases List.mem_cons.mp h with h | h
      · subst h; simp
      · exact hd r h
  have := procesarCSV_todos red url w _ (by simp) hall
  refine ⟨hp, this.1, ?_⟩
  rw [this.2.1]
  simp [carga, hp]

theorem procesarCSV_booleano_por_defecto_witness :
    (∀ r ∈ [dosFilas.headD []], 6 ≤ r.length) ∧ (∀ r ∈ ([] : List (List Bytes)), 6 ≤ r.length)
      ∧ ParseBool (lit "si") = (false, true)
      ∧ (procesarCSV redFija [] () ([dosFilas.headD []] ++
          [lit "2", lit "2024-09-30", lit "2024-09-13", lit "si", lit "x190", lit "4"]
            :: [])).fin = .retorna (lit "Datos enviados correctamente", none) :=
  ⟨by decide, by decide,
    (procesarCSV_booleano_por_defecto redFija [] () [dosFilas.headD []] []
      (lit "2") (lit "2024-09-30") (lit "2024-09-13") (lit "si") (lit "x190") (lit "4") []
      (by decide) (by decide) (by decide)).1,
    (procesarCSV_booleano_por_defecto redFija [] () [dosFilas.headD []] []
      (lit "2") (lit "2024-09-30") (lit "2024-09-13") (lit "si") (lit "x190") (lit "4") []
      (by decide) (by decide) (by decide)).2.1⟩

/-- C9: the field count is checked on the first row only: when the rows before
a row with fewer than six fields all have at least six (and there is at least
one of them), `procesarCSV` panics with an index out of range at that row, so
it returns neither the success message nor an error, after one call of
`enviarRegistro` for each row before it. -/
theorem procesarCSV_fila_corta {σ : Type} (red : Red σ) (url : Bytes) (w : σ)
    (antes : List (List Bytes)) (corto : List Bytes) (despues : List (List Bytes))
    (hne : antes ≠ []) (ha : ∀ r ∈ antes, 6 ≤ r.length) (hc : corto.length < 6) :
    (procesarCSV red url w (antes ++ corto :: despues)).fin = .panic
      ∧ (procesarCSV red url w (antes ++ corto :: despues)).enviados = antes.map carga := by
  match antes, hne with
  | r0 :: resto, _ =>
    rw [List.cons_append, procesarCSV_largo red url w r0 _ (ha r0 (List.mem_cons_self _ _)),
      ← List.cons_append]
    exact recorrer_hasta_corto red url (r0 :: resto) corto despues ha hc w

theorem procesarCSV_fila_corta_witness :
    dosFilas ≠ [] ∧ (∀ r ∈ dosFilas, 6 ≤ r.length) ∧ [lit "3", lit "2024-09-30"].length < 6
      ∧ (procesarCSV redFija [] () (dosFilas ++ [lit "3", lit "2024-09-30"] :: [])).fin = .panic
      ∧ (procesarCSV redFija [] () (dosFilas ++ [lit "3", lit "2024-09-30"] :: [])).enviados
          = dosFilas.map carga :=
  ⟨by decide, by decide, by decide,
    procesarCSV_fila_corta redFija [] () dosFilas [lit "3", lit "2024-09-30"] []
      (by decide) (by decide) (by decide)⟩

/-! ## The handlers -/

theorem HelloWorld.handler_es_tuberia {σ : Type} (t : Textos) (red : Red σ)
    (base64Data url : Bytes) (w : σ) (request : Request) :
    HelloWorld.handler t red base64Data url w request = tuberia t red url [] w base64Data :=
  rfl

theorem RegistroDatos.handler_otro_metodo {σ : Type} (t : Textos) (red : Red σ) (url : Bytes)
    (w : σ) (request : Request) (Base64Data : Bytes)
    (h1 : request.HTTPMethod ≠ lit "OPTIONS") (h2 : request.HTTPMethod ≠ lit "POST")
    (hu : Unmarshal request.Body = some Base64Data) :
    RegistroDatos.handler t red url w request
      = tuberia t red url RegistroDatos.headers w Base64Data := by
  simp only [RegistroDatos.handler, if_neg h1, if_neg h2, hu]
  rfl

theorem tuberia_invalido {σ : Type} (t : Textos) (red : Red σ) (url : Bytes)
    (hs : List (Bytes × Bytes)) (w : σ) (b64 data : Bytes) (registros : List (List Bytes))
    (hd : decodificarBase64 b64 = .ok data) (hl : leerCSV t data = .ok registros)
    (h : registros = [] ∨ ∃ r0 resto, registros = r0 :: resto ∧ r0.length < 6) :
    tuberia t red url hs w b64 = ⟨.retorna (⟨400, hs, lit "CSV no valido"⟩, none), w, []⟩ := by
  simp [tuberia, hd, hl, procesarCSV_invalido red url w registros h]

theorem tuberia_decodificar {σ : Type} (t : Textos) (red : Red σ) (url : Bytes)
    (hs : List (Bytes × Bytes)) (w : σ) (b64 err : Bytes)
    (hd : decodificarBase64 b64 = .error err) :
    tuberia t red url hs w b64 = ⟨.retorna (⟨400, hs, err⟩, none), w, []⟩ := by
  simp [tuberia, hd]

/-- C2: the handler of `registro-datos` answers every `OPTIONS` request with
status 200 and every `POST` request with status 201; whatever the body, the
response has the three CORS headers and the body `{"message":"Hello, world!"}`,
the Go error is nil, the outside world is untouched and `enviarRegistro` is
never called (the answer does not depend on the body, on the library texts or
on the endpoint: nothing is decoded, parsed or posted). -/
theorem RegistroDatos.handler_options_post {σ : Type} (t : Textos) (red : Red σ)
    (url : Bytes) (w : σ) (body : Bytes) :
    RegistroDatos.handler t red url w ⟨lit "OPTIONS", body⟩
        = ⟨.retorna (⟨200, RegistroDatos.headers, RegistroDatos.jsonStr⟩, none), w, []⟩
      ∧ RegistroDatos.handler t red url w ⟨lit "POST", body⟩
        = ⟨.retorna (⟨201, RegistroDatos.headers, RegistroDatos.jsonStr⟩, none), w, []⟩
      ∧ RegistroDatos.jsonStr = lit "\x7b\"message\":\"Hello, world!\"\x7d"
      ∧ RegistroDatos.headers =
        [(lit "Access-Control-Allow-Origin", lit "http://localhost:4200"),
         (lit "Access-Control-Allow-Methods", lit "GET, POST, PUT, OPTIONS"),
         (lit "Access-Control-Allow-Headers", lit "Content-Type, Authorization")] := by
  refine ⟨?_, ?_, by decide, rfl⟩
  · simp [RegistroDatos.handler]
  · have : lit "POST" ≠ lit "OPTIONS" := by decide
    simp [RegistroDatos.handler, this]

/-- C8: a list of rows that is empty, or whose first row has fewer than six
fields, makes `procesarCSV` return the empty string and the error
"CSV no valido" without a call of `enviarRegistro`; when `leerCSV` produced
such a list, the handler of `hello-world`, and the handler of `registro-datos`
for a method other than `OPTIONS` and `POST`, answer 400 with the body
"CSV no valido", again without a call of `enviarRegistro`. -/
theorem csv_no_valido {σ : Type} (t : Textos) (red : Red σ) (url : Bytes) (w : σ)
    (registros : List (List Bytes))
    (h : registros = [] ∨ ∃ r0 resto, registros = r0 :: resto ∧ r0.length < 6) :
    procesarCSV red url w registros = ⟨.retorna ([], some (lit "CSV no valido")), w, []⟩
      ∧ (∀ (base64Data data : Bytes) (request : Request),
          decodificarBase64 base64Data = .ok data → leerCSV t data = .ok registros →
          HelloWorld.handler t red base64Data url w request
            = ⟨.retorna (⟨400, [], lit "CSV no valido"⟩, none), w, []⟩)
      ∧ (∀ (Base64Data data : Bytes) (request : Request),
          request.HTTPMethod ≠ lit "OPTIONS" → request.HTTPMethod ≠ lit "POST" →
          Unmarshal request.Body = some Base64Data →
          decodificarBase64 Base64Data = .ok data → leerCSV t data = .ok registros →
          RegistroDatos.handler t red url w request
            = ⟨.retorna (⟨400, RegistroDatos.headers, lit "CSV no valido"⟩, none), w, []⟩) := by
  refine ⟨procesarCSV_invalido red url w registros h, ?_, ?_⟩
  · intro b64 data request hd hl
    rw [HelloWorld.handler_es_tuberia]
    exact tuberia_invalido t red url [] w b64 data registros hd hl h
  · intro b64 data request h1 h2 hu hd hl
    rw [RegistroDatos.handler_otro_metodo t red url w request b64 h1 h2 hu]
    exact tuberia_invalido t red url _ w b64 data registros hd hl h

theorem csv_no_valido_witness :
    RegistroDatos.handler sinTextos redFija RegistroDatos.endpointURL ()
        ⟨lit "GET", lit "\x7b\"base64Data\":\"\"\x7d"⟩
      = ⟨.retorna (⟨400, RegistroDatos.headers, lit "CSV no valido"⟩, none), (), []⟩ :=
  (csv_no_valido sinTextos redFija RegistroDatos.endpointURL () [] (Or.inl rfl)).2.2
    [] [] ⟨lit "GET", lit "\x7b\"base64Data\":\"\"\x7d"⟩
    (by decide) (by decide) (by decide) (by decide) (by decide)

/-! ## The CSV reader: every record has the field count of the first -/

theorem conByte_ok {b : Nat} {x : Except CsvError (List Bytes × Bytes)} {fs : List Bytes}
    {r : Bytes} (h : conByte b x = .ok (fs, r)) (hx : ∀ gs q, x = .ok (gs, q) → gs ≠ []) :
    fs ≠ [] := by
  match x, h with
  | .ok (g :: gs, q), h =>
    simp only [conByte, Except.ok.injEq, Prod.mk.injEq] at h
    rw [← h.1]; simp
  | .ok ([], q), _ => exact absurd rfl (hx [] q rfl)

theorem conCampo_ok {x : Except CsvError (List Bytes × Bytes)} {fs : List Bytes}
    {r : Bytes} (h : conCampo x = .ok (fs, r)) : fs ≠ [] := by
  match x, h with
  | .ok (gs, q), h =>
    simp only [conCampo, Except.ok.injEq, Prod.mk.injEq] at h
    rw [← h.1]; simp

theorem parseField_campos (s : Bytes) :
    ∀ (l : Lugar) (fs : List Bytes) (r : Bytes), parseField l s = .ok (fs, r) → fs ≠ [] := by
  induction s with
  | nil =>
    intro l fs r h
    cases l <;> simp [parseField] at h <;> simp [← h.1]
  | cons b bs ih =>
    intro l fs r h
    cases l <;> simp only [parseField] at h <;> split_ifs at h
    all_goals first
      | exact ih _ _ _ h
      | exact conCampo_ok h
      | exact conByte_ok h (ih _)
      | (simp only [Except.ok.injEq, Prod.mk.injEq] at h; rw [← h.1]; simp)

theorem readAll_uniforme (fuel : Nat) :
    ∀ (fpr : Nat) (s : Bytes) (rs : List (List Bytes)), readAll fuel fpr s = .ok rs →
      (0 < fpr → ∀ r ∈ rs, r.length = fpr)
        ∧ (fpr = 0 → ∀ r0 ∈ rs.head?, ∀ r ∈ rs, r.length = r0.length) := by
  induction fuel with
  | zero =>
    intro fpr s rs h
    simp only [readAll, Except.ok.injEq] at h
    subst h; simp
  | succ fuel ih =>
    intro fpr s rs h
    match s, h with
    | [], h =>
      simp only [readAll, Except.ok.injEq] at h
      subst h; simp
    | b :: bs, h =>
      simp only [readAll] at h
      by_cases hb : b = 10
      · rw [if_pos hb] at h
        exact ih fpr bs rs h
      · rw [if_neg hb] at h
        cases hp : parseField .campo (b :: bs) with
        | error e => simp [hp] at h
        | ok p =>
          obtain ⟨dst, rest⟩ := p
          have hne : dst ≠ [] := parseField_campos _ _ _ _ hp
          have hlen : 0 < dst.length := List.length_pos.mpr hne
          simp only [hp] at h
          by_cases hc : 0 < fpr ∧ dst.length ≠ fpr
          · rw [if_pos hc] at h
            exact absurd h (by simp)
          · rw [if_neg hc] at h
            cases hr : readAll fuel (if fpr = 0 then dst.length else fpr) rest with
            | error e => simp [hr] at h
            | ok records =>
              simp only [hr, Except.ok.injEq] at h
              subst h
              have := ih _ _ _ hr
              by_cases h0 : fpr = 0
              · subst h0
                simp only [if_true] at this
                refine ⟨fun hh => absurd hh (by omega), fun _ r0 hr0 r hmem => ?_⟩
                simp only [List.head?_cons, Option.mem_def, Option.some.injEq] at hr0
                subst hr0
                rcases List.mem_cons.mp hmem with h1 | h1
                · rw [h1]
                · exact this.1 hlen r h1
              · simp only [if_neg h0] at this
                have hpos : 0 < fpr := Nat.pos_of_ne_zero h0
                refine ⟨fun _ r hmem => ?_, fun hh => absurd hh h0⟩
                rcases List.mem_cons.mp hmem with h1 | h1
                · rw [h1]
                  by_contra hx
                  exact hc ⟨hpos, hx⟩
                · exact this.1 hpos r h1

theorem leerCSV_uniforme (t : Textos) (data : Bytes) (registros : List (List Bytes))
    (h : leerCSV t data = .ok registros) :
    ∀ r0 ∈ registros.head?, ∀ r ∈ registros, r.length = r0.length := by
  unfold leerCSV at h
  cases hr : ReadAll data with
  | error e => simp [hr] at h
  | ok rs =>
    simp only [hr, Except.ok.injEq] at h
    subst h
    exact (readAll_uniforme _ _ _ _ hr).2 rfl

theorem tuberia_responde {σ : Type} (t : Textos) (red : Red σ) (url : Bytes)
    (hs : List (Bytes × Bytes)) (w : σ) (b64 : Bytes) :
    ∃ resp, (tuberia t red url hs w b64).fin = .retorna (resp, none)
      ∧ (resp.StatusCode = 200 ∨ resp.StatusCode = 400) := by
  cases hd : decodificarBase64 b64 with
  | error err => exact ⟨⟨400, hs, err⟩, by simp only [tuberia, hd], Or.inr rfl⟩
  | ok data =>
    cases hl : leerCSV t data with
    | error err => exact ⟨⟨400, hs, err⟩, by simp only [tuberia, hd, hl], Or.inr rfl⟩
    | ok registros =>
      have hu := leerCSV_uniforme t data registros hl
      by_cases hv : registros = [] ∨ ∃ r0 resto, registros = r0 :: resto ∧ r0.length < 6
      · exact ⟨⟨400, hs, lit "CSV no valido"⟩,
          by rw [tuberia_invalido t red url hs w b64 data registros hd hl hv], Or.inr rfl⟩
      · match registros, hu, hv with
        | [], _, hv => exact absurd (Or.inl rfl) hv
        | r0 :: resto, hu, hv =>
          have h6 : 6 ≤ r0.length := by
            by_contra hx
            exact hv (Or.inr ⟨r0, resto, rfl, by omega⟩)
          have hall : ∀ r ∈ r0 :: resto, 6 ≤ r.length := by
            intro r hr
            rw [hu r0 rfl r hr]
            exact h6
          have := procesarCSV_todos red url w (r0 :: resto) (by simp) hall
          exact ⟨⟨200, hs, lit "Datos enviados correctamente"⟩,
            by simp [tuberia, hd, hl, this.1], Or.inl rfl⟩

/-! ## `Sscanf` on a token that does not start with an integer -/

theorem limitar_prefijo (rs : List Nat) : ∀ c, limitar c rs <+: rs := by
  induction rs with
  | nil => intro c; simp [limitar]
  | cons r rs ih =>
    intro c
    simp only [limitar]
    split_ifs
    · exact (List.prefix_cons_inj r).mpr (ih _)
    · exact List.nil_prefix

theorem dropWhile_isSpace_idem (rs : List Nat) :
    (rs.dropWhile isSpace).dropWhile isSpace = rs.dropWhile isSpace := by
  induction rs with
  | nil => rfl
  | cons r rs ih =>
    by_cases h : isSpace r = true
    · simp [List.dropWhile_cons, h, ih]
    · simp [List.dropWhile_cons, h]

theorem SkipSpace_prefijo (p : List Nat) :
    ∀ (rs x : List Nat), p <+: rs → SkipSpace p = some x → x <+: rs.dropWhile isSpace := by
  induction p with
  | nil =>
    intro rs x _ h
    simp only [SkipSpace, Option.some.injEq] at h
    subst h
    exact List.nil_prefix
  | cons r p ih =>
    intro rs x hp h
    obtain ⟨q, rfl⟩ := hp
    simp only [SkipSpace] at h
    by_cases h10 : r = 10
    · simp [h10] at h
    · rw [if_neg h10] at h
      by_cases hs : isSpace r = true
      · rw [if_pos hs] at h
        have := ih (p ++ q) x (List.prefix_append _ _) h
        simpa [List.dropWhile_cons, hs] using this
      · rw [if_neg hs] at h
        simp only [Option.some.injEq] at h
        subst h
        simp [List.dropWhile_cons, hs]

theorem Sscanf_sin_entero (tok : Bytes) (h : empiezaConEntero tok = false) :
    Sscanf tok = none := by
  unfold Sscanf
  cases h1 : SkipSpace (limitar 0 ((runes tok).map Prod.fst)) with
  | none => rfl
  | some x =>
    have hx := SkipSpace_prefijo _ _ x (limitar_prefijo _ 0) h1
    simp only [scanInt]
    cases h2 : SkipSpace x with
    | none => rfl
    | some y =>
      have hy := SkipSpace_prefijo x _ y hx h2
      rw [dropWhile_isSpace_idem] at hy
      match y, hy with
      | [], _ => rfl
      | r :: rest, hy =>
        obtain ⟨q, hq⟩ := hy
        simp only [empiezaConEntero, ← hq, List.cons_append] at h
        simp only
        by_cases hsg : r = 43 ∨ r = 45
        · simp only [if_pos hsg] at h ⊢
          match rest, h with
          | [], _ => simp
          | d :: ds, h =>
            simp only [List.cons_append] at h
            simp [List.takeWhile_cons, h]
        · simp only [if_neg hsg] at h ⊢
          simp [List.takeWhile_cons, h]

/-- C6, counterexample: the token `42abc` is not a decimal integer numeral, yet
`Sscanf` reads 42 from it and the row is sent with `RolId.Id` 42, not 0. -/
theorem entero_por_defecto_contraejemplo :
    esNumeral (lit "42abc") = false
      ∧ (Sscanf (lit "42abc")).getD 0 = 42
      ∧ (procesarCSV redFija [] ()
          [[lit "5", lit "2024-09-30", lit "2024-09-13", lit "false", lit "42abc", lit "2"]]
        ).enviados =
        [lit ("\x7b\"FechaFin\":\"2024-09-30\",\"FechaInicio\":\"2024-09-13\","
          ++ "\"Finalizado\":false,\"RolId\":\x7b\"Id\":42\x7d,\"UsuarioId\":\x7b\"Id\":2\x7d\x7d")] := by
  decide!

/-- C6, amended: in a batch whose rows all have at least six fields,
`procesarCSV` returns the success message with a nil error; a row whose field 4
does not start with an integer (after its leading white space and an optional
sign there is no decimal digit) is sent with `RolId.Id` 0, and a row whose
field 5 does not start with an integer is sent with `UsuarioId.Id` 0. -/
theorem procesarCSV_entero_por_defecto {σ : Type} (red : Red σ) (url : Bytes) (w : σ)
    (antes despues : List (List Bytes))
    (id fechaFin fechaInicio finalizadoStr rolIdInt usuarioIdInt : Bytes) (mas : List Bytes)
    (ha : ∀ r ∈ antes, 6 ≤ r.length) (hd : ∀ r ∈ despues, 6 ≤ r.length) :
    (procesarCSV red url w (antes ++
          (id :: fechaFin :: fechaInicio :: finalizadoStr :: rolIdInt :: usuarioIdInt :: mas)
            :: despues)).fin = .retorna (lit "Datos enviados correctamente", none)
      ∧ (empiezaConEntero rolIdInt = false →
        Sscanf rolIdInt = none
        ∧ (procesarCSV red url w (antes ++
          (id :: fechaFin :: fechaInicio :: finalizadoStr :: rolIdInt :: usuarioIdInt :: mas)
            :: despues)).enviados =
          antes.map carga ++
            (lit "\x7b\"FechaFin\":" ++ appendString fechaFin
              ++ lit ",\"FechaInicio\":" ++ appendString fechaInicio
              ++ lit ",\"Finalizado\":"
              ++ (if (ParseBool finalizadoStr).1 then lit "true" else lit "false")
              ++ lit ",\"RolId\":" ++ marshalIdent ⟨0⟩
              ++ lit ",\"UsuarioId\":" ++ marshalIdent ⟨(Sscanf usuarioIdInt).getD 0⟩
              ++ lit "\x7d") :: despues.map carga)
      ∧ (empiezaConEntero usuarioIdInt = false →
        Sscanf usuarioIdInt = none
        ∧ (procesarCSV red url w (antes ++
          (id :: fechaFin :: fechaInicio :: finalizadoStr :: rolIdInt :: usuarioIdInt :: mas)
            :: despues)).enviados =
          antes.map carga ++
            (lit "\x7b\"FechaFin\":" ++ appendString fechaFin
              ++ lit ",\"FechaInicio\":" ++ appendString fechaInicio
              ++ lit ",\"Finalizado\":"
              ++ (if (ParseBool finalizadoStr).1 then lit "true" else lit "false")
              ++ lit ",\"RolId\":" ++ marshalIdent ⟨(Sscanf rolIdInt).getD 0⟩
              ++ lit ",\"UsuarioId\":" ++ marshalIdent ⟨0⟩
              ++ lit "\x7d") :: despues.map carga) := by
  have hall : ∀ r ∈ antes ++
      (id :: fechaFin :: fechaInicio :: finalizadoStr :: rolIdInt :: usuarioIdInt :: mas)
        :: despues, 6 ≤ r.length := by
    intro r hr
    rcases List.mem_append.mp hr with h | h
    · exact ha r h
    · rcases List.mem_cons.mp h with h | h
      · subst h; simp
      · exact hd r h
  have := procesarCSV_todos red url w _ (by simp) hall
  refine ⟨this.1, fun h => ⟨Sscanf_sin_entero _ h, ?_⟩, fun h => ⟨Sscanf_sin_entero _ h, ?_⟩⟩
  · rw [this.2.1]
    simp [carga, Sscanf_sin_entero _ h]
  · rw [this.2.1]
    simp [carga, Sscanf_sin_entero _ h]

theorem procesarCSV_entero_por_defecto_witness :
    (∀ r ∈ [dosFilas.headD []], 6 ≤ r.length) ∧ (∀ r ∈ ([] : List (List Bytes)), 6 ≤ r.length)
      ∧ empiezaConEntero (lit "x190") = false
      ∧ Sscanf (lit "x190") = none :=
  ⟨by decide, by decide, by decide,
    ((procesarCSV_entero_por_defecto redFija [] () [dosFilas.headD []] []
      (lit "2") (lit "2024-09-30") (lit "2024-09-13") (lit "si") (lit "x190") (lit "4") []
      (by decide) (by decide)).2.1 (by decide)).1⟩

/-- C10: `leerCSV` only returns rows that all have the field count of the first
row (the reader rejects a record whose count differs from the first one's); so
when the first-row check of `procesarCSV` passes on what `leerCSV` returned,
every row has at least six fields and `procesarCSV` returns the success
message; and neither handler ever panics: the handler of `hello-world` always
answers 200 or 400, the handler of `registro-datos` answers 201 to a `POST`
and 200 or 400 to everything else. -/
theorem leerCSV_filas_uniformes (t : Textos) :
    (∀ (data : Bytes) (registros : List (List Bytes)), leerCSV t data = .ok registros →
        ∀ r0 ∈ registros.head?, ∀ r ∈ registros, r.length = r0.length)
      ∧ (∀ (data : Bytes) (r0 : List Bytes) (resto : List (List Bytes)),
          leerCSV t data = .ok (r0 :: resto) → 6 ≤ r0.length →
          (∀ r ∈ r0 :: resto, 6 ≤ r.length)
            ∧ ∀ (σ : Type) (red : Red σ) (url : Bytes) (w : σ),
              (procesarCSV red url w (r0 :: resto)).fin
                = .retorna (lit "Datos enviados correctamente", none))
      ∧ (∀ (σ : Type) (red : Red σ) (base64Data url : Bytes) (w : σ) (request : Request),
          ∃ resp, (HelloWorld.handler t red base64Data url w request).fin = .retorna (resp, none)
            ∧ (resp.StatusCode = 200 ∨ resp.StatusCode = 400))
      ∧ (∀ (σ : Type) (red : Red σ) (url : Bytes) (w : σ) (request : Request),
          ∃ resp, (RegistroDatos.handler t red url w request).fin = .retorna (resp, none)
            ∧ (request.HTTPMethod = lit "POST" → resp.StatusCode = 201)
            ∧ (request.HTTPMethod ≠ lit "POST" →
                resp.StatusCode = 200 ∨ resp.StatusCode = 400)) := by
  refine ⟨leerCSV_uniforme t, ?_, ?_, ?_⟩
  · intro data r0 resto hl h6
    have hall : ∀ r ∈ r0 :: resto, 6 ≤ r.length := by
      intro r hr
      rw [leerCSV_uniforme t data _ hl r0 rfl r hr]
      exact h6
    exact ⟨hall, fun σ red url w => (procesarCSV_todos red url w _ (by simp) hall).1⟩
  · intro σ red b64 url w request
    rw [HelloWorld.handler_es_tuberia]
    exact tuberia_responde t red url [] w b64
  · intro σ red url w request
    by_cases h1 : request.HTTPMethod = lit "OPTIONS"
    · refine ⟨⟨200, RegistroDatos.headers, RegistroDatos.jsonStr⟩, ?_, ?_, fun _ => Or.inl rfl⟩
      · simp [RegistroDatos.handler, h1]
      · intro h2
        rw [h1] at h2
        exact absurd h2 (by decide)
    · by_cases h2 : request.HTTPMethod = lit "POST"
      · refine ⟨⟨201, RegistroDatos.headers, RegistroDatos.jsonStr⟩, ?_, fun _ => rfl,
          fun h => absurd h2 h⟩
        simp only [RegistroDatos.handler, if_neg h1, if_pos h2]
      · cases hu : Unmarshal request.Body with
        | none =>
          refine ⟨⟨400, RegistroDatos.headers,
            lit "Error al procesar el cuerpo del request: " ++ t.json request.Body⟩, ?_,
            fun h => absurd h h2, fun _ => Or.inr rfl⟩
          simp [RegistroDatos.handler, h1, h2, hu]
        | some b64 =>
          rw [RegistroDatos.handler_otro_metodo t red url w request b64 h1 h2 hu]
          obtain ⟨resp, hr, hs⟩ := tuberia_responde t red url RegistroDatos.headers w b64
          exact ⟨resp, hr, fun h => absurd h h2, fun _ => hs⟩

theorem leerCSV_filas_uniformes_witness :
    leerCSV sinTextos (lit "1,a,b,c,d,e\n2,f,g,h,i,j\n")
        = .ok [[lit "1", lit "a", lit "b", lit "c", lit "d", lit "e"],
          [lit "2", lit "f", lit "g", lit "h", lit "i", lit "j"]]
      ∧ 6 ≤ [lit "1", lit "a", lit "b", lit "c", lit "d", lit "e"].length
      ∧ (∀ r ∈ [[lit "1", lit "a", lit "b", lit "c", lit "d", lit "e"],
          [lit "2", lit "f", lit "g", lit "h", lit "i", lit "j"]], 6 ≤ r.length) :=
  ⟨by decide, by decide,
    ((leerCSV_filas_uniformes sinTextos).2.1 (lit "1,a,b,c,d,e\n2,f,g,h,i,j\n")
      [lit "1", lit "a", lit "b", lit "c", lit "d", lit "e"]
      [[lit "2", lit "f", lit "g", lit "h", lit "i", lit "j"]] (by decide) (by decide)).1⟩

/-! ## base64: what the decoder accepts -/

theorem decodeMap_some_iff (c : Nat) : (decodeMap c).isSome = esAlfabeto c := by
  have hlen : encodeStd.length = 64 := by decide
  unfold decodeMap esAlfabeto
  by_cases h : c ∈ encodeStd
  · have := List.indexOf_lt_length.mpr h
    rw [hlen] at this
    simp [this, h]
  · have : encodeStd.indexOf c = encodeStd.length := List.indexOf_eq_length.mpr h
    rw [hlen] at this
    simp [this, h, hlen]

theorem esAlfabeto_no_salto (c : Nat) (h : esAlfabeto c = true) : esSalto c = false := by
  have h10 : esAlfabeto 10 = false := by decide
  have h13 : esAlfabeto 13 = false := by decide
  unfold esSalto
  by_cases hc : c = 10 ∨ c = 13
  · rcases hc with rfl | rfl
    · rw [h10] at h; exact absurd h (by simp)
    · rw [h13] at h; exact absurd h (by simp)
  · simp [hc]

theorem sigue_cero (t : Bytes) (h : sigue 0 t) : esBase64Estandar t = true := by
  obtain ⟨h1, h2, h3⟩ := h
  simp only [Nat.zero_add] at h2 h3
  simp [esBase64Estandar, h1, h2, h3]

theorem filter_dropWhile_salto (l : Bytes) :
    (l.dropWhile esSalto).filter (fun c => !esSalto c) = l.filter (fun c => !esSalto c) := by
  induction l with
  | nil => rfl
  | cons a l ih =>
    by_cases h : esSalto a = true
    · simp [List.dropWhile_cons, List.filter_cons, h, ih]
    · simp [List.dropWhile_cons, h]

theorem decode_sigue (n : Nat) (rest : Bytes) :
    ∀ (dbuf : List Nat) (out : Bytes), dbuf.length < 4 → decode n rest dbuf = .ok out →
      sigue dbuf.length (rest.filter (fun c => !esSalto c)) := by
  induction rest with
  | nil =>
    intro dbuf out _ h
    simp only [decode] at h
    by_cases h0 : dbuf.length = 0
    · simp [sigue, h0]
    · rw [if_neg h0] at h; exact absurd h (by simp)
  | cons c cs ih =>
    intro dbuf out hlt h
    simp only [decode] at h
    cases hm : decodeMap c with
    | some v =>
      have ha : esAlfabeto c = true := by rw [← decodeMap_some_iff, hm]; rfl
      have hs : esSalto c = false := esAlfabeto_no_salto c ha
      simp only [hm] at h
      have key : ∀ j, j < 4 → sigue j (cs.filter (fun c => !esSalto c)) →
          (dbuf.length + 1) % 4 = j →
          sigue dbuf.length ((c :: cs).filter (fun c => !esSalto c)) := by
        intro j _ hj hmod
        obtain ⟨h1, h2, h3⟩ := hj
        simp only [sigue, List.filter_cons, hs, Bool.not_false, if_true,
          List.dropWhile_cons, List.takeWhile_cons, ha, List.length_cons]
        refine ⟨h1, ?_, ?_⟩ <;> omega
      by_cases h3 : dbuf.length = 3
      · rw [if_pos h3] at h
        cases hr : decode n cs [] with
        | error e => simp [hr] at h
        | ok r =>
          have := ih [] r (by simp) hr
          exact key 0 (by omega) this (by simp [h3])
      · rw [if_neg h3] at h
        have := ih (dbuf ++ [v]) out (by simp; omega) h
        simp only [List.length_append, List.length_singleton] at this
        exact key (dbuf.length + 1) (by omega) this (by omega)
    | none =>
      have ha : esAlfabeto c = false := by
        rw [← decodeMap_some_iff, hm]; rfl
      simp only [hm] at h
      by_cases hs : esSalto c = true
      · rw [if_pos hs] at h
        have := ih dbuf out hlt h
        simpa [List.filter_cons, hs] using this
      · rw [if_neg hs] at h
        by_cases h61 : c = 61
        · subst h61
          rw [if_neg (by simp)] at h
          by_cases hj : dbuf.length < 2
          · rw [if_pos hj] at h; exact absurd h (by simp)
          · rw [if_neg hj] at h
            by_cases h2 : dbuf.length = 2
            · rw [if_pos h2] at h
              cases hd : cs.dropWhile esSalto with
              | nil => simp [hd] at h
              | cons d ds =>
                simp only [hd] at h
                by_cases hd61 : d = 61
                · subst hd61
                  rw [if_neg (by simp)] at h
                  by_cases hg : ds.dropWhile esSalto = []
                  · have e1 : cs.filter (fun c => !esSalto c) = [61] := by
                      rw [← filter_dropWhile_salto cs, hd, List.filter_cons]
                      have : esSalto 61 = false := by decide
                      simp only [this, Bool.not_false, if_true]
                      rw [← filter_dropWhile_salto ds, hg]
                      rfl
                    have e61 : esSalto 61 = false := by decide
                    simp only [sigue, List.filter_cons, e61, Bool.not_false, if_true, e1, h2]
                    decide
                  · rw [if_pos hg] at h; exact absurd h (by simp)
                · rw [if_pos hd61] at h; exact absurd h (by simp)
            · rw [if_neg h2] at h
              by_cases hg : cs.dropWhile esSalto = []
              · have e1 : cs.filter (fun c => !esSalto c) = [] := by
                  rw [← filter_dropWhile_salto cs, hg]
                  rfl
                have e61 : esSalto 61 = false := by decide
                have h3 : dbuf.length = 3 := by omega
                simp only [sigue, List.filter_cons, e61, Bool.not_false, if_true, e1, h3]
                decide
              · rw [if_pos hg] at h; exact absurd h (by simp)
        · rw [if_pos h61] at h; exact absurd h (by simp)

theorem decodificarBase64_rechaza (s : Bytes)
    (h : esBase64Estandar (s.filter (fun c => !esSalto c)) = false) :
    ∃ e, decodificarBase64 s = .error (lit "Error al decodificar base64: " ++ e) := by
  unfold decodificarBase64
  cases hd : decodeString s with
  | error err => exact ⟨_, rfl⟩
  | ok datos =>
    have := sigue_cero _ (decode_sigue s.length s [] datos (by simp) hd)
    rw [this] at h
    exact absurd h (by simp)

/-- C3, counterexample: `QUJD` followed by a line feed is not standard base64
(the line feed is outside the alphabet), yet `decodificarBase64` decodes it to
`ABC` without an error, and the handler of `registro-datos` answers a `GET`
that carries it with "CSV no valido", not with a decode error. -/
theorem base64_invalido_contraejemplo :
    esBase64Estandar (lit "QUJD\n") = false
      ∧ decodificarBase64 (lit "QUJD\n") = .ok (lit "ABC")
      ∧ RegistroDatos.handler sinTextos redFija RegistroDatos.endpointURL ()
          ⟨lit "GET", lit "\x7b\"base64Data\":\"QUJD\\n\"\x7d"⟩
        = ⟨.retorna (⟨400, RegistroDatos.headers, lit "CSV no valido"⟩, none), (), []⟩ := by
  decide!

/-- C3, amended: the decoder ignores carriage returns and line feeds; for every
string that is not standard base64 once they are removed, `decodificarBase64`
returns an error whose message starts with "Error al decodificar base64: ", and
the handler of `registro-datos`, for a method other than `OPTIONS` and `POST`
and a body whose `base64Data` is that string, answers 400 with that message as
the body, leaves the world untouched and never calls `enviarRegistro`. -/
theorem base64_invalido_rechazado (s : Bytes)
    (h : esBase64Estandar (s.filter (fun c => !esSalto c)) = false) :
    ∃ e, decodificarBase64 s = .error (lit "Error al decodificar base64: " ++ e)
      ∧ ∀ (σ : Type) (t : Textos) (red : Red σ) (url : Bytes) (w : σ) (request : Request),
        request.HTTPMethod ≠ lit "OPTIONS" → request.HTTPMethod ≠ lit "POST" →
        Unmarshal request.Body = some s →
        RegistroDatos.handler t red url w request
          = ⟨.retorna (⟨400, RegistroDatos.headers, lit "Error al decodificar base64: " ++ e⟩,
              none), w, []⟩ := by
  obtain ⟨e, he⟩ := decodificarBase64_rechaza s h
  refine ⟨e, he, ?_⟩
  intro σ t red url w request h1 h2 hu
  rw [RegistroDatos.handler_otro_metodo t red url w request s h1 h2 hu]
  exact tuberia_decodificar t red url _ w s _ he

theorem base64_invalido_rechazado_witness :
    esBase64Estandar ((lit "Q!==").filter (fun c => !esSalto c)) = false
      ∧ ∃ e, decodificarBase64 (lit "Q!==") = .error (lit "Error al decodificar base64: " ++ e)
        ∧ ∀ (σ : Type) (t : Textos) (red : Red σ) (url : Bytes) (w : σ) (request : Request),
          request.HTTPMethod ≠ lit "OPTIONS" → request.HTTPMethod ≠ lit "POST" →
          Unmarshal request.Body = some (lit "Q!==") →
          RegistroDatos.handler t red url w request
            = ⟨.retorna (⟨400, RegistroDatos.headers,
                lit "Error al decodificar base64: " ++ e⟩, none), w, []⟩ :=
  ⟨by decide, base64_invalido_rechazado (lit "Q!==") (by decide)⟩

/-! ## base64: decoding an encoding -/

theorem decodeMap_letra : ∀ v, v < 64 → decodeMap (letra v) = some v := by
  decide

theorem decode_codificar (n : Nat) :
    ∀ bs : Bytes, (∀ b ∈ bs, b < 256) → decode n (codificarBase64 bs) [] = .ok bs
  | [], _ => by simp [codificarBase64, decode]
  | [a], h => by
    have ha : a < 256 := h a (by simp)
    have e61 : decodeMap 61 = none := by decide
    have s61 : esSalto 61 = false := by decide
    simp only [codificarBase64, decode, decodeMap_letra (a / 4) (by omega),
      decodeMap_letra (a % 4 * 16) (by omega), e61, s61]
    simp [quantum, List.dropWhile_cons, s61]
    omega
  | [a, b], h => by
    have ha : a < 256 := h a (by simp)
    have hb : b < 256 := h b (by simp)
    have e61 : decodeMap 61 = none := by decide
    have s61 : esSalto 61 = false := by decide
    simp only [codificarBase64, decode, decodeMap_letra (a / 4) (by omega),
      decodeMap_letra (a % 4 * 16 + b / 16) (by omega),
      decodeMap_letra (b % 16 * 4) (by omega), e61, s61]
    simp [quantum]
    omega
  | a :: b :: c :: rest, h => by
    have ha : a < 256 := h a (by simp)
    have hb : b < 256 := h b (by simp)
    have hc : c < 256 := h c (by simp)
    have ih := decode_codificar n rest (fun x hx => h x (by simp [hx]))
    simp only [codificarBase64, decode, decodeMap_letra (a / 4) (by omega),
      decodeMap_letra (a % 4 * 16 + b / 16) (by omega),
      decodeMap_letra (b % 16 * 4 + c / 64) (by omega),
      decodeMap_letra (c % 64) (by omega)]
    simp [quantum, ih]
    omega

theorem decodificar_codificar (bs : Bytes) (h : ∀ b ∈ bs, b < 256) :
    decodificarBase64 (codificarBase64 bs) = .ok bs := by
  simp [decodificarBase64, decodeString, decode_codificar _ bs h]

/-! ## CSV: reading what was written -/

theorem normalizar_cons {b : Nat} (h : b ≠ 13) (t : Bytes) :
    normalizar (b :: t) = b :: normalizar t := by
  cases t with
  | nil => simp [normalizar, h]
  | cons c r => simp [normalizar, h]

theorem normalizar_cr {c : Nat} (h : c ≠ 10) (r : Bytes) :
    normalizar (13 :: c :: r) = 13 :: normalizar (c :: r) := by
  simp [normalizar, h]

theorem estable_byte {b : Nat} (h : b ≠ 13) : estable [b] :=
  fun t => normalizar_cons h t

theorem estable_nil : estable [] := fun _ => rfl

theorem estable_append {a b : Bytes} (ha : estable a) (hb : estable b) : estable (a ++ b) := by
  intro t
  rw [List.append_assoc, ha, hb, List.append_assoc]

theorem estable_cons {b : Nat} {s : Bytes} (h : b ≠ 13) (hs : estable s) : estable (b :: s) :=
  estable_append (estable_byte h) hs

theorem estable_sin_cr (f : Bytes) (h : ∀ b ∈ f, b ≠ 13) : estable f := by
  induction f with
  | nil => exact estable_nil
  | cons b r ih =>
    exact estable_cons (h b (List.mem_cons_self _ _))
      (ih (fun x hx => h x (List.mem_cons_of_mem _ hx)))

theorem sinCRLFtras_false (f : Bytes) (cr : Bool) (h : sinCRLFtras cr f = true) :
    sinCRLFtras false f = true := by
  cases f with
  | nil => rfl
  | cons b r =>
    simp only [sinCRLFtras, Bool.and_eq_true] at h ⊢
    exact ⟨by simp, h.2⟩

theorem estable_duplicar (f : Bytes) :
    ∀ cr, sinCRLFtras cr f = true → estable (duplicarComillas f ++ [34]) := by
  induction f with
  | nil => intro _ _; exact estable_byte (by decide)
  | cons b r ih =>
    intro cr h
    simp only [sinCRLFtras, Bool.and_eq_true] at h
    have hr := ih _ h.2
    by_cases h34 : b = 34
    · simp only [duplicarComillas, if_pos h34, List.cons_append]
      exact estable_cons (by decide) (estable_cons (by decide) hr)
    · simp only [duplicarComillas, if_neg h34, List.cons_append]
      by_cases h13 : b = 13
      · subst h13
        intro t
        have h2 := h.2
        cases r with
        | nil =>
          simp only [duplicarComillas, List.nil_append, List.cons_append]
          rw [normalizar_cr (by decide), normalizar_cons (by decide)]
        | cons c r' =>
          simp only [sinCRLFtras, decide_True, Bool.true_and, Bool.and_eq_true,
            Bool.not_eq_true', decide_eq_false_iff_not] at h2
          have hc : c ≠ 10 := h2.1
          have hh := hr t
          by_cases c34 : c = 34
          · simp only [duplicarComillas, if_pos c34, List.cons_append] at hh ⊢
            rw [normalizar_cr (by decide), hh]
          · simp only [duplicarComillas, if_neg c34, List.cons_append] at hh ⊢
            rw [normalizar_cr hc, hh]
      · exact estable_cons h13 hr

theorem conComillas_false {f : Bytes} (h : conComillas f = false) :
    ∀ b ∈ f, b ≠ 44 ∧ b ≠ 34 ∧ b ≠ 13 ∧ b ≠ 10 := by
  intro b hb
  simp only [conComillas, List.any_eq_false, decide_eq_true_eq] at h
  have := h b hb
  omega

theorem estable_campo (f : Bytes) (h : sinCRLF f = true) : estable (escribirCampo f) := by
  unfold escribirCampo
  by_cases hq : conComillas f = true
  · rw [if_pos hq]
    exact estable_cons (by decide) (estable_duplicar f false h)
  · rw [if_neg hq]
    exact estable_sin_cr f (fun b hb => (conComillas_false (by simpa using hq) b hb).2.2.1)

theorem estable_campos : ∀ r : List Bytes, (∀ f ∈ r, sinCRLF f = true) →
    estable (escribirCampos r)
  | [], _ => estable_nil
  | [f], h => estable_campo f (h f (by simp))
  | f :: g :: fs, h => by
    simp only [escribirCampos]
    exact estable_append (estable_campo f (h f (by simp)))
      (estable_cons (by decide) (estable_campos (g :: fs) (fun x hx => h x (by simp [hx]))))

theorem normalizar_escribirCSV (crlf : Bool) (rows : List (List Bytes))
    (h : ∀ r ∈ rows, ∀ f ∈ r, sinCRLF f = true) :
    normalizar (escribirCSV crlf rows) = escribirCSV false rows := by
  induction rows with
  | nil => rfl
  | cons r rs ih =>
    have ih' := ih (fun x hx => h x (List.mem_cons_of_mem _ hx))
    simp only [escribirCSV, List.append_assoc]
    rw [estable_campos r (h r (List.mem_cons_self _ _))]
    cases crlf with
    | false =>
      simp only [Bool.false_eq_true, if_false, List.singleton_append]
      rw [normalizar_cons (by decide), ih']
    | true =>
      simp only [if_true, Bool.false_eq_true, if_false, List.cons_append, List.nil_append]
      simp only [normalizar, and_self, if_true]
      rw [ih']

theorem conBytes_ok (f g : Bytes) (gs : List Bytes) (r : Bytes) :
    conBytes f (.ok (g :: gs, r)) = .ok ((f ++ g) :: gs, r) := by
  induction f with
  | nil => rfl
  | cons b f ih =>
    show conByte b (conBytes f (.ok (g :: gs, r))) = _
    rw [ih]
    rfl

theorem parseField_libre_cons {b : Nat} (bs : Bytes) (h44 : b ≠ 44) (h10 : b ≠ 10)
    (h34 : b ≠ 34) : parseField .libre (b :: bs) = conByte b (parseField .libre bs) := by
  simp [parseField, h44, h10, h34]

theorem parseField_campo_cons {b : Nat} (bs : Bytes) (h44 : b ≠ 44) (h10 : b ≠ 10)
    (h34 : b ≠ 34) : parseField .campo (b :: bs) = conByte b (parseField .libre bs) := by
  simp [parseField, h44, h10, h34]

theorem parseField_campo_abre (bs : Bytes) :
    parseField .campo (34 :: bs) = parseField .comillas bs := by
  simp [parseField]

theorem parseField_comillas_cons {b : Nat} (bs : Bytes) (h34 : b ≠ 34) :
    parseField .comillas (b :: bs) = conByte b (parseField .comillas bs) := by
  simp [parseField, h34]

theorem parseField_comillas_doble (bs : Bytes) :
    parseField .comillas (34 :: 34 :: bs) = conByte 34 (parseField .comillas bs) := by
  simp [parseField]

theorem parseField_comillas_cierra (bs : Bytes) :
    parseField .comillas (34 :: bs) = parseField .trasComilla bs := by
  simp [parseField]

theorem parseField_libre (f : Bytes) (h : ∀ b ∈ f, b ≠ 44 ∧ b ≠ 34 ∧ b ≠ 13 ∧ b ≠ 10)
    (t : Bytes) : parseField .libre (f ++ t) = conBytes f (parseField .libre t) := by
  induction f with
  | nil => rfl
  | cons b f ih =>
    have hb := h b (List.mem_cons_self _ _)
    rw [List.cons_append, parseField_libre_cons _ hb.1 hb.2.2.2 hb.2.1,
      ih (fun x hx => h x (List.mem_cons_of_mem _ hx))]
    rfl

theorem parseField_comillas (f t : Bytes) :
    parseField .comillas (duplicarComillas f ++ 34 :: t)
      = conBytes f (parseField .trasComilla t) := by
  induction f with
  | nil => simp [duplicarComillas, parseField_comillas_cierra, conBytes]
  | cons b f ih =>
    by_cases h34 : b = 34
    · subst h34
      simp only [duplicarComillas, if_true, List.cons_append]
      rw [parseField_comillas_doble, ih]
      rfl
    · simp only [duplicarComillas, if_neg h34, List.cons_append]
      rw [parseField_comillas_cons _ h34, ih]
      rfl

/-- What follows a field: after a comma the next fields, after a line feed the
end of the record. -/
theorem parseField_campo (f : Bytes) (c : Nat) (t : Bytes) (hc : c = 44 ∨ c = 10) :
    parseField .campo (escribirCampo f ++ c :: t)
      = conBytes f (if c = 44 then conCampo (parseField .campo t) else .ok ([[]], t)) := by
  have htras : parseField .trasComilla (c :: t)
      = if c = 44 then conCampo (parseField .campo t) else .ok ([[]], t) := by
    rcases hc with rfl | rfl <;> simp [parseField]
  have hlibre : parseField .libre (c :: t)
      = if c = 44 then conCampo (parseField .campo t) else .ok ([[]], t) := by
    rcases hc with rfl | rfl <;> simp [parseField]
  have hcampo : parseField .campo (c :: t)
      = if c = 44 then conCampo (parseField .campo t) else .ok ([[]], t) := by
    rcases hc with rfl | rfl <;> simp [parseField]
  unfold escribirCampo
  by_cases hq : conComillas f = true
  · rw [if_pos hq, List.cons_append, List.append_assoc, List.singleton_append,
      parseField_campo_abre, parseField_comillas, htras]
  · rw [if_neg hq]
    have hf := conComillas_false (by simpa using hq)
    cases f with
    | nil => simpa [conBytes] using hcampo
    | cons b f =>
      have hb := hf b (List.mem_cons_self _ _)
      rw [List.cons_append, parseField_campo_cons _ hb.1 hb.2.2.2 hb.2.1,
        parseField_libre f (fun x hx => hf x (List.mem_cons_of_mem _ hx)), hlibre]
      rfl

theorem parseField_fila : ∀ (r : List Bytes) (rest : Bytes), r ≠ [] →
    parseField .campo (escribirCampos r ++ 10 :: rest) = .ok (r, rest)
  | [f], rest, _ => by
    simp only [escribirCampos]
    rw [parseField_campo f 10 rest (Or.inr rfl)]
    simp [conBytes_ok]
  | f :: g :: fs, rest, _ => by
    simp only [escribirCampos, List.append_assoc, List.cons_append]
    rw [parseField_campo f 44 _ (Or.inl rfl), if_pos rfl,
      parseField_fila (g :: fs) rest (by simp)]
    simp [conCampo, conBytes_ok]

theorem escribirCampo_cabeza (f : Bytes) (t : Bytes) :
    ∃ b tl, escribirCampo f ++ 44 :: t = b :: tl ∧ b ≠ 10 := by
  unfold escribirCampo
  by_cases hq : conComillas f = true
  · rw [if_pos hq]
    exact ⟨34, _, rfl, by decide⟩
  · rw [if_neg hq]
    have hf := conComillas_false (by simpa using hq)
    cases f with
    | nil => exact ⟨44, t, rfl, by decide⟩
    | cons b f => exact ⟨b, _, rfl, (hf b (List.mem_cons_self _ _)).2.2.2⟩

theorem escribirCampos_cabeza (r : List Bytes) (h : 2 ≤ r.length) (t : Bytes) :
    ∃ b tl, escribirCampos r ++ 10 :: t = b :: tl ∧ b ≠ 10 := by
  match r, h with
  | f :: g :: fs, _ =>
    simp only [escribirCampos, List.append_assoc, List.cons_append]
    exact escribirCampo_cabeza f _

theorem readAll_escribirCSV (n : Nat) (hn : 2 ≤ n) (rows : List (List Bytes)) :
    ∀ (fuel fpr : Nat), rows.length < fuel → (∀ r ∈ rows, r.length = n) →
      (fpr = 0 ∨ fpr = n) → readAll fuel fpr (escribirCSV false rows) = .ok rows := by
  induction rows with
  | nil =>
    intro fuel fpr _ _ _
    cases fuel <;> rfl
  | cons r rs ih =>
    intro fuel fpr hfuel hrows hfpr
    have hr : r.length = n := hrows r (List.mem_cons_self _ _)
    obtain ⟨b, tl, hbt, hb⟩ := escribirCampos_cabeza r (by omega) (escribirCSV false rs)
    have hp := parseField_fila r (escribirCSV false rs) (by
      intro h; rw [h] at hr; simp at hr; omega)
    match fuel, hfuel with
    | fuel + 1, hfuel =>
      simp only [escribirCSV, Bool.false_eq_true, if_false, List.append_assoc,
        List.singleton_append]
      rw [hbt] at hp ⊢
      simp only [readAll, if_neg hb, hp]
      have hcount : ¬(0 < fpr ∧ r.length ≠ fpr) := by
        rcases hfpr with h | h <;> omega
      rw [if_neg hcount]
      have hnext : (if fpr = 0 then r.length else fpr) = n := by
        rcases hfpr with h | h
        · simp [h, hr]
        · have : fpr ≠ 0 := by omega
          rw [if_neg this]; exact h
      rw [hnext, ih fuel n (by simpa using hfuel)
        (fun x hx => hrows x (List.mem_cons_of_mem _ hx)) (Or.inr rfl)]

theorem length_escribirCSV (rows : List (List Bytes)) :
    rows.length ≤ (escribirCSV false rows).length := by
  induction rows with
  | nil => simp
  | cons r rs ih =>
    simp only [escribirCSV, Bool.false_eq_true, if_false, List.length_append,
      List.length_cons, List.length_nil]
    omega

theorem leerCSV_escribirCSV (t : Textos) (crlf : Bool) (n : Nat) (hn : 2 ≤ n)
    (rows : List (List Bytes)) (hrows : ∀ r ∈ rows, r.length = n)
    (hcr : ∀ r ∈ rows, ∀ f ∈ r, sinCRLF f = true) :
    leerCSV t (escribirCSV crlf rows) = .ok rows := by
  have h := readAll_escribirCSV n hn rows ((escribirCSV false rows).length + 1) 0
    (by have := length_escribirCSV rows; omega) hrows (Or.inl rfl)
  simp [leerCSV, ReadAll, normalizar_escribirCSV crlf rows hcr, h]

theorem duplicarComillas_bytes (f : Bytes) (h : ∀ b ∈ f, b < 256) :
    ∀ b ∈ duplicarComillas f, b < 256 := by
  induction f with
  | nil => simp [duplicarComillas]
  | cons c f ih =>
    have hc := h c (List.mem_cons_self _ _)
    have := ih (fun x hx => h x (List.mem_cons_of_mem _ hx))
    intro b hb
    simp only [duplicarComillas] at hb
    split_ifs at hb with h34
    · simp only [List.mem_cons] at hb
      rcases hb with rfl | rfl | hb
      · omega
      · omega
      · exact this b hb
    · rcases List.mem_cons.mp hb with rfl | hb
      · exact hc
      · exact this b hb

theorem escribirCampo_bytes (f : Bytes) (h : ∀ b ∈ f, b < 256) :
    ∀ b ∈ escribirCampo f, b < 256 := by
  intro b hb
  unfold escribirCampo at hb
  split_ifs at hb
  · simp only [List.mem_cons, List.mem_append, List.mem_singleton, List.not_mem_nil,
      or_false] at hb
    rcases hb with rfl | hb | rfl
    · decide
    · exact duplicarComillas_bytes f h b hb
    · decide
  · exact h b hb

theorem escribirCampos_bytes : ∀ r : List Bytes, (∀ f ∈ r, ∀ b ∈ f, b < 256) →
    ∀ b ∈ escribirCampos r, b < 256
  | [], _ => by simp [escribirCampos]
  | [f], h => by
    simp only [escribirCampos]
    exact escribirCampo_bytes f (h f (by simp))
  | f :: g :: fs, h => by
    intro b hb
    simp only [escribirCampos, List.mem_append, List.mem_cons] at hb
    rcases hb with hb | rfl | hb
    · exact escribirCampo_bytes f (h f (by simp)) b hb
    · decide
    · exact escribirCampos_bytes (g :: fs) (fun x hx => h x (by simp [hx])) b hb

theorem escribirCSV_bytes (crlf : Bool) (rows : List (List Bytes))
    (h : ∀ r ∈ rows, ∀ f ∈ r, ∀ b ∈ f, b < 256) : ∀ b ∈ escribirCSV crlf rows, b < 256 := by
  induction rows with
  | nil => simp [escribirCSV]
  | cons r rs ih =>
    intro b hb
    simp only [escribirCSV, List.mem_append] at hb
    rcases hb with (hb | hb) | hb
    · exact escribirCampos_bytes r (h r (List.mem_cons_self _ _)) b hb
    · cases crlf <;> simp at hb <;> omega
    · exact ih (fun x hx => h x (List.mem_cons_of_mem _ hx)) b hb

/-- C7, counterexample: two rows of six and seven fields, written as CSV (with
either line break) and base64, decode to the same CSV bytes, but `ReadAll`
rejects them with `ErrFieldCount`, so `leerCSV` returns an error; and a row
with a field that holds a carriage return followed by a line feed is read back
with the carriage return gone. -/
theorem ida_y_vuelta_contraejemplo :
    filasDesiguales ≠ [] ∧ (∀ r ∈ filasDesiguales, 6 ≤ r.length)
      ∧ (∀ crlf : Bool,
        decodificarBase64 (codificarBase64 (escribirCSV crlf filasDesiguales))
            = .ok (escribirCSV crlf filasDesiguales)
          ∧ ReadAll (escribirCSV crlf filasDesiguales) = .error .ErrFieldCount
          ∧ leerCSV sinTextos (escribirCSV crlf filasDesiguales)
              = .error (lit "Error al leer el CSV: "))
      ∧ filaConCRLF ≠ [] ∧ (∀ r ∈ filaConCRLF, 6 ≤ r.length)
      ∧ (∀ crlf : Bool,
        decodificarBase64 (codificarBase64 (escribirCSV crlf filaConCRLF))
            = .ok (escribirCSV crlf filaConCRLF)
          ∧ leerCSV sinTextos (escribirCSV crlf filaConCRLF)
              = .ok [[lit "1", lit "a\nb", lit "c", lit "d", lit "e", lit "f"]])
      ∧ [[lit "1", lit "a\nb", lit "c", lit "d", lit "e", lit "f"]] ≠ filaConCRLF := by
  decide!

/-- C7, amended: for a non-empty list of rows that all have the same number of
fields, at least six, where no field holds a carriage return immediately
followed by a line feed (all bytes below 256), writing the rows as standard
comma-separated CSV (with either line break), encoding the bytes as standard
base64, then applying `decodificarBase64` and `leerCSV` returns exactly the
original rows without an error; and `decodificarBase64` of the standard base64
encoding of any byte sequence returns that byte sequence. -/
theorem ida_y_vuelta (t : Textos) (registros : List (List Bytes)) (n : Nat)
    (hne : registros ≠ []) (h6 : 6 ≤ n) (hn : ∀ r ∈ registros, r.length = n)
    (hcr : ∀ r ∈ registros, ∀ f ∈ r, sinCRLF f = true)
    (hb : ∀ r ∈ registros, ∀ f ∈ r, ∀ b ∈ f, b < 256) :
    (∀ crlf : Bool,
        ∃ data, decodificarBase64 (codificarBase64 (escribirCSV crlf registros)) = .ok data
          ∧ leerCSV t data = .ok registros)
      ∧ ∀ bs : Bytes, (∀ b ∈ bs, b < 256) → decodificarBase64 (codificarBase64 bs) = .ok bs :=
  have _ := hne
  ⟨fun crlf => ⟨escribirCSV crlf registros,
      decodificar_codificar _ (escribirCSV_bytes crlf registros hb),
      leerCSV_escribirCSV t crlf n (by omega) registros hn hcr⟩,
    decodificar_codificar⟩

theorem ida_y_vuelta_witness :
    dosFilas ≠ [] ∧ (∀ r ∈ dosFilas, r.length = 6)
      ∧ (∀ r ∈ dosFilas, ∀ f ∈ r, sinCRLF f = true)
      ∧ (∀ r ∈ dosFilas, ∀ f ∈ r, ∀ b ∈ f, b < 256)
      ∧ ∃ data, decodificarBase64 (codificarBase64 (escribirCSV false dosFilas)) = .ok data
        ∧ leerCSV sinTextos data = .ok dosFilas :=
  ⟨by decide, by decide, by decide, by decide,
    (ida_y_vuelta sinTextos dosFilas 6 (by decide) (by decide) (by decide) (by decide)
      (by decide)).1 false⟩

/-! ## The fuel of the loops is never used up -/

theorem conByte_inv {b : Nat} {x : Except CsvError (List Bytes × Bytes)} {fs : List Bytes}
    {r : Bytes} (h : conByte b x = .ok (fs, r)) : ∃ gs, x = .ok (gs, r) := by
  match x, h with
  | .ok (g :: gs, q), h =>
    simp only [conByte, Except.ok.injEq, Prod.mk.injEq] at h
    exact ⟨g :: gs, by rw [h.2]⟩
  | .ok ([], q), h =>
    simp only [conByte, Except.ok.injEq, Prod.mk.injEq] at h
    exact ⟨[], by rw [h.2]⟩

theorem conCampo_inv {x : Except CsvError (List Bytes × Bytes)} {fs : List Bytes}
    {r : Bytes} (h : conCampo x = .ok (fs, r)) : ∃ gs, x = .ok (gs, r) := by
  match x, h with
  | .ok (gs, q), h =>
    simp only [conCampo, Except.ok.injEq, Prod.mk.injEq] at h
    exact ⟨gs, by rw [h.2]⟩

theorem parseField_resto (s : Bytes) :
    ∀ (l : Lugar) (fs : List Bytes) (r : Bytes), parseField l s = .ok (fs, r) →
      r.length ≤ s.length := by
  induction s with
  | nil =>
    intro l fs r h
    cases l <;> simp [parseField] at h <;> simp [← h.2]
  | cons b bs ih =>
    intro l fs r h
    have paso : ∀ l' gs, parseField l' bs = .ok (gs, r) → r.length ≤ (b :: bs).length :=
      fun l' gs hh => Nat.le_succ_of_le (ih l' gs r hh)
    cases l <;> simp only [parseField] at h <;> split_ifs at h
    all_goals first
      | exact paso _ _ h
      | (obtain ⟨gs, hg⟩ := conCampo_inv h; exact paso _ _ hg)
      | (obtain ⟨gs, hg⟩ := conByte_inv h; exact paso _ _ hg)
      | (simp only [Except.ok.injEq, Prod.mk.injEq] at h; rw [← h.2]; simp)

/-- With more fuel than the input has bytes, `readAll` does not depend on the
fuel: the loop of `ReadAll` always runs to the end of the input. -/
theorem readAll_combustible (fuel : Nat) :
    ∀ (extra fpr : Nat) (s : Bytes), s.length < fuel →
      readAll (fuel + extra) fpr s = readAll fuel fpr s := by
  induction fuel with
  | zero => intro _ _ s h; exact absurd h (Nat.not_lt_zero _)
  | succ fuel ih =>
    intro extra fpr s h
    rw [show fuel + 1 + extra = (fuel + extra) + 1 by omega]
    match s, h with
    | [], _ => rfl
    | b :: bs, h =>
      simp only [readAll]
      have hbs : bs.length < fuel := by simpa using h
      by_cases hb : b = 10
      · rw [if_pos hb, if_pos hb]
        exact ih extra fpr bs hbs
      · rw [if_neg hb, if_neg hb]
        cases hp : parseField .campo (b :: bs) with
        | error e => rfl
        | ok p =>
          obtain ⟨dst, rest⟩ := p
          have hrest : rest.length < fuel := by
            have h1 : parseField .campo (b :: bs) = .ok (dst, rest) := hp
            simp only [parseField] at h1
            split_ifs at h1
            all_goals first
              | exact Nat.lt_of_le_of_lt (parseField_resto _ _ _ _ h1) hbs
              | (obtain ⟨gs, hg⟩ := conCampo_inv h1
                 exact Nat.lt_of_le_of_lt (parseField_resto _ _ _ _ hg) hbs)
              | (obtain ⟨gs, hg⟩ := conByte_inv h1
                 exact Nat.lt_of_le_of_lt (parseField_resto _ _ _ _ hg) hbs)
          simp only [ih extra _ rest hrest]

/-- With at least as much fuel as the string has bytes, `runesAux` does not
depend on the fuel. -/
theorem runesAux_combustible (fuel : Nat) :
    ∀ (extra : Nat) (s : Bytes), s.length ≤ fuel →
      runesAux (fuel + extra) s = runesAux fuel s := by
  induction fuel with
  | zero =>
    intro extra s h
    have : s = [] := List.length_eq_zero.mp (Nat.le_zero.mp h)
    subst this
    cases extra <;> rfl
  | succ fuel ih =>
    intro extra s h
    rw [show fuel + 1 + extra = (fuel + extra) + 1 by omega]
    match s, h with
    | [], _ => rfl
    | b :: bs, h =>
      simp only [runesAux]
      rw [ih extra _ (by simp only [List.length_drop, List.length_cons] at h ⊢; omega)]

/-- With at least as much fuel as the string has bytes, `appendStringAux` does
not depend on the fuel. -/
theorem appendStringAux_combustible (fuel : Nat) :
    ∀ (extra : Nat) (s : Bytes), s.length ≤ fuel →
      appendStringAux (fuel + extra) s = appendStringAux fuel s := by
  induction fuel with
  | zero =>
    intro extra s h
    have : s = [] := List.length_eq_zero.mp (Nat.le_zero.mp h)
    subst this
    cases extra <;> rfl
  | succ fuel ih =>
    intro extra s h
    rw [show fuel + 1 + extra = (fuel + extra) + 1 by omega]
    match s, h with
    | [], _ => rfl
    | b :: bs, h =>
      have h1 : bs.length ≤ fuel := by simpa using h
      have h2 : ∀ k, (bs.drop k).length ≤ fuel := fun k => by
        simp only [List.length_drop]; omega
      simp only [appendStringAux, ih extra bs h1, ih extra _ (h2 _)]

/-! ## The handler of `hello-world` on its initial payload -/

theorem HelloWorld.base64Data_filas :
    (match decodificarBase64 HelloWorld.base64Data with
      | .ok data =>
        match ReadAll data with
        | .ok registros =>
          decide (registros.length = 20 ∧ ∀ r ∈ registros, r.length = 6)
        | .error _ => false
      | .error _ => false) = true := by
  decide!

/-- With the initial value of `base64Data`, the handler of `hello-world` answers
200 with the success message after twenty calls of `enviarRegistro`, whatever
the endpoint does. -/
theorem HelloWorld.handler_inicial {σ : Type} (t : Textos) (red : Red σ) (url : Bytes)
    (w : σ) (request : Request) :
    (HelloWorld.handler t red HelloWorld.base64Data url w request).fin
        = .retorna (⟨200, [], lit "Datos enviados correctamente"⟩, none)
      ∧ (HelloWorld.handler t red HelloWorld.base64Data url w request).enviados.length
        = 20 := by
  have h := HelloWorld.base64Data_filas
  rw [HelloWorld.handler_es_tuberia]
  unfold tuberia
  generalize decodificarBase64 HelloWorld.base64Data = x at h ⊢
  match x, h with
  | .ok data, h =>
    cases hr : ReadAll data with
    | error e => simp [hr] at h
    | ok registros =>
      simp only [hr, decide_eq_true_eq] at h
      have hne : registros ≠ [] := by
        intro h0; rw [h0] at h; simp at h
      have hall : ∀ r ∈ registros, 6 ≤ r.length := fun r hr' => by rw [h.2 r hr']
      have hp := procesarCSV_todos red url w registros hne hall
      have hl : leerCSV t data = .ok registros := by simp [leerCSV, hr]
      constructor
      · simp [hl, hp.1]
      · simp [hl, hp.1, hp.2.1, h.1]

end CargueArchivo
